import Mathlib

/-!
# Register transport and actuator position engine

A shallow embedding of

* `drivers/media/platform/exynos/fimc-is2/sensor/module_framework/fimc-is-control-actuator.c`
  (`fimc_is_actuator_ctl_convert_position`, `fimc_is_actuator_ctl_search_position`), and
* `drivers/iio/imu/icm_mpu/inv_mpu_i2c.c`
  (`_memory_write`, `mpu_memory_write`, `mpu_memory_read`),

followed by the properties proved about them.

Conventions: a C `u32` is a natural number below `2 ^ 32`, a C `int` is an
integer, a nullable pointer is an `Option`, and the I2C adapter is an explicit
state machine whose every exchange is recorded.
-/

namespace Kernel

/-! ## Error numbers

The errno constants are declared in the kernel's errno header, which is not one
of the two files embedded here. -/

/-- Modelled from the spec: errno `EINVAL`, the `InvalidArgument` error. -/
def EINVAL : Int := 22

/-- Modelled from the spec: errno `ENOMEM`, returned for the `OutOfRange` error
of the banked write. -/
def ENOMEM : Int := 12

/-- Modelled from the spec: errno `EIO`, the `IoError` error (the name `EIO` is
taken in Lean). -/
def EIO_errno : Int := 5

end Kernel

namespace Actuator

open Kernel

/-! ## Constants declared outside the source file -/

/-- Modelled from the spec: first of "the two recognized values
{near-to-far, far-to-near}" of `enum fimc_is_actuator_direction`, whose
declaration is outside the file embedded here. It is the ascending direction of
`fimc_is_actuator_ctl_search_position`. -/
def ACTUATOR_RANGE_INF_TO_MAC : Nat := 0

/-- Modelled from the spec: second and last recognised value of
`enum fimc_is_actuator_direction`; every larger value is rejected by
`fimc_is_actuator_ctl_convert_position`. -/
def ACTUATOR_RANGE_MAC_TO_INF : Nat := 1

/-! ## 32-bit arithmetic -/

/-- Left shift of a 32-bit word: the mathematical shift truncated to 32 bits.
C leaves counts of 32 and more undefined; every property below is stated for
counts under 32. -/
def shl32 (x n : Nat) : Nat := (x <<< n) % 2 ^ 32

/-- Logical right shift of a 32-bit unsigned word. -/
def shr32 (x n : Nat) : Nat := x >>> n

/-- Subtraction of 32-bit unsigned words, wrapping modulo `2 ^ 32`. -/
def sub32 (x y : Nat) : Nat := (x + 2 ^ 32 - y % 2 ^ 32) % 2 ^ 32

/-! ## `fimc_is_actuator_ctl_convert_position` -/

/-- Embedding of `fimc_is_actuator_ctl_convert_position`. The in/out parameter
`*pos` is the argument `pos`; the result is the returned `int` paired with the
value of `*pos` on return. -/
def fimc_is_actuator_ctl_convert_position (pos src_max_pos src_direction
    tgt_max_pos tgt_direction : Nat) : Int × Nat :=
  let convert_pos := pos
  if convert_pos ≥ shl32 1 src_max_pos then
    (-EINVAL, pos)
  else if src_direction > ACTUATOR_RANGE_MAC_TO_INF ∨
      tgt_direction > ACTUATOR_RANGE_MAC_TO_INF then
    (-EINVAL, pos)
  else
    -- Convert bitage
    let convert_pos :=
      if src_max_pos < tgt_max_pos then shl32 convert_pos (tgt_max_pos - src_max_pos)
      else if src_max_pos > tgt_max_pos then shr32 convert_pos (src_max_pos - tgt_max_pos)
      else convert_pos
    -- Convert Direction
    let convert_pos :=
      if src_direction ≠ tgt_direction then
        sub32 (sub32 (shl32 1 tgt_max_pos) 1) convert_pos
      else convert_pos
    (0, convert_pos)

/-- The rescaled magnitude as the specification words it, in unbounded
arithmetic: "left-shift if `src_bits < tgt_bits`, right-shift if greater,
unchanged if equal". -/
def rescale_spec (pos src_bits tgt_bits : Nat) : Nat :=
  if src_bits < tgt_bits then pos <<< (tgt_bits - src_bits)
  else if src_bits > tgt_bits then pos >>> (src_bits - tgt_bits)
  else pos

/-- The conversion as the specification words it, in unbounded arithmetic:
rescale, then "if source and target directions differ, mirror the value:
`pos' = (2^tgt_bits - 1) - pos'`". -/
def convert_position_spec (pos src_bits src_dir tgt_bits tgt_dir : Nat) : Nat :=
  if src_dir ≠ tgt_dir then (2 ^ tgt_bits - 1) - rescale_spec pos src_bits tgt_bits
  else rescale_spec pos src_bits tgt_bits

/-! ## `fimc_is_actuator_ctl_search_position` -/

/-- Result of an `int` operation of the kernel, which is built with wrapping
signed arithmetic: the value reduced to the two's-complement range
`[-2 ^ 31, 2 ^ 31)`. -/
def wrap_int (x : Int) : Int := (x + 2 ^ 31) % 2 ^ 32 - 2 ^ 31

/-- Conversion `(u32)x` of an `int`. -/
def u32_of_int (x : Int) : Nat := (x % 2 ^ 32).toNat

/-- Entry `position_table[middle]` of the table; the source reads it only for
`0 ≤ middle < ACTUATOR_MAX_FOCUS_POSITIONS`. -/
def table_at (position_table : List Nat) (middle : Int) : Nat :=
  position_table.getD middle.toNat 0

/-- The `while (right >= left)` loop of `fimc_is_actuator_ctl_search_position`
and the statements after it, started in the state `(left, right, middle)`.
`N` is the constant `ACTUATOR_MAX_FOCUS_POSITIONS`, whose definition is outside
the file embedded here. The first argument bounds the number of evaluations of
the loop condition; `none` means that this bound was reached. The result is the
returned `int` paired with `*searched_pos`, which is 0 when the function returns
from inside the loop with an error. -/
def search_loop (N position : Nat) (position_table : List Nat) (direction : Nat) :
    Nat → Int → Int → Int → Option (Int × Nat)
  | 0, _, _, _ => none
  | fuel + 1, left, right, middle =>
    if right ≥ left then
      let middle := wrap_int (right + left) >>> (1 : Nat)
      if middle < 0 ∨ middle ≥ (N : Int) then
        some (-EINVAL, 0)
      else if position = table_at position_table middle then
        some (0, u32_of_int middle)
      else if direction = ACTUATOR_RANGE_INF_TO_MAC then
        if position < table_at position_table middle then
          search_loop N position position_table direction fuel left (wrap_int (middle - 1)) middle
        else
          search_loop N position position_table direction fuel (wrap_int (middle + 1)) right middle
      else
        if position > table_at position_table middle then
          search_loop N position position_table direction fuel left (wrap_int (middle - 1)) middle
        else
          search_loop N position position_table direction fuel (wrap_int (middle + 1)) right middle
    else
      some (0, u32_of_int middle)

/-- Embedding of `fimc_is_actuator_ctl_search_position` for a table capacity
`N = ACTUATOR_MAX_FOCUS_POSITIONS`: `middle = 0`, `left = 0`, `right = N - 1`, then
the loop. Every iteration shrinks `right - left`, so `N + 1` evaluations of the
loop condition are enough. -/
def fimc_is_actuator_ctl_search_position (N position : Nat) (position_table : List Nat)
    (direction : Nat) : Option (Int × Nat) :=
  search_loop N position position_table direction (N + 1) 0 (wrap_int ((N : Int) - 1)) 0

/-- A table "monotonic in the declared scan direction": non-decreasing for
`ACTUATOR_RANGE_INF_TO_MAC`, the direction the search treats as ascending, and
non-increasing otherwise. -/
def SortedIn (direction : Nat) (position_table : List Nat) : Prop :=
  if direction = ACTUATOR_RANGE_INF_TO_MAC then position_table.Pairwise (· ≤ ·)
  else position_table.Pairwise (· ≥ ·)

/-- The value `position` lies strictly between `a` and `b` in the order of the
direction: `a < position < b` when ascending, `a > position > b` otherwise. -/
def StrictlyBetween (direction position a b : Nat) : Prop :=
  if direction = ACTUATOR_RANGE_INF_TO_MAC then a < position ∧ position < b
  else a > position ∧ position > b

/-- The branch `right = middle - 1` of the loop is taken. -/
def goes_left (direction position v : Nat) : Prop :=
  if direction = ACTUATOR_RANGE_INF_TO_MAC then position < v else position > v

instance (direction position v : Nat) : Decidable (goes_left direction position v) := by
  unfold goes_left; infer_instance

/-- The entry `v` comes strictly before `position` in the order of the
direction: the branch `left = middle + 1` is taken. -/
def is_before (direction position v : Nat) : Prop :=
  if direction = ACTUATOR_RANGE_INF_TO_MAC then v < position else v > position

/-! ## The timer-driven commit loop -/

/-- Modelled from the spec: the two values of the in-flight flag `timer_check`,
whose declaration is outside the file embedded here: `HRTIMER_POSSIBLE` is the
state `Idle`, `HRTIMER_IMPOSSIBLE` the state `Armed`. -/
inductive timer_check_state where
  | HRTIMER_POSSIBLE
  | HRTIMER_IMPOSSIBLE
  deriving DecidableEq

/-- Modelled from the spec: the values of `enum hrtimer_restart`, declared
outside the file embedded here. -/
inductive hrtimer_restart where
  | HRTIMER_NORESTART
  | HRTIMER_RESTART
  deriving DecidableEq

/-- What the two timer functions read and write of
`struct fimc_is_device_sensor_peri`: the window corner fields of `actuator`, the
flag `actuator_data.timer_check`, and three records of what they do to the
collaborators: the delays, in milliseconds, of the calls of `hrtimer_start` on
`afwindow_timer`, the number of `err` messages about the timer, and the number
of calls of `fimc_is_sensor_peri_call_m2m_actuator` together with the state
`commit` of that collaborator. -/
structure fimc_is_device_sensor_peri (σ : Type) where
  /-- Field `actuator.left_x`. -/
  left_x : Nat
  /-- Field `actuator.left_y`. -/
  left_y : Nat
  /-- Field `actuator.right_x`. -/
  right_x : Nat
  /-- Field `actuator.right_y`. -/
  right_y : Nat
  /-- Field `actuator.actuator_data.timer_check`. -/
  timer_check : timer_check_state
  /-- Every call of `hrtimer_start`, oldest first, with its delay in ms. -/
  timer_starts : List Nat
  /-- Number of `err("have problem of hrtimer, ...")` messages. -/
  timer_errors : Nat
  /-- Number of calls of `fimc_is_sensor_peri_call_m2m_actuator`. -/
  m2m_calls : Nat
  /-- State of the collaborator that commits the position. -/
  commit : σ

/-- What `fimc_is_actuator_notify_m2m_actuator` reads of its argument
`struct fimc_is_device_sensor`: `subdev_module`, NULL or a subdev whose
subdevdata `module` is NULL or present, and `valid_time` of the `csi` subdev. -/
structure fimc_is_device_sensor where
  /-- Field `subdev_module` and its subdevdata. -/
  subdev_module : Option (Option Unit)
  /-- Field `valid_time` of the subdevdata of `subdev_csi`, in usec. -/
  valid_time : Nat

/-- Embedding of `fimc_is_actuator_notify_m2m_actuator`, the spec's
`request_window_move`. `W` and `H` are the constants `VIRTUAL_COORDINATE_WIDTH`
and `VIRTUAL_COORDINATE_HEIGHT`, whose definitions are outside the file embedded
here. `sensor_peri` is `module->private_data`. The result is the returned `int`
and `sensor_peri` afterwards; `none` stands for a call that does not return:
`BUG_ON(!device)`, or the division by a `virtual_image_size` of 0. -/
def fimc_is_actuator_notify_m2m_actuator {σ : Type} (W H : Nat)
    (arg : Option fimc_is_device_sensor) (sensor_peri : fimc_is_device_sensor_peri σ) :
    Option (Int × fimc_is_device_sensor_peri σ) :=
  match arg with
  | none => none
  | some device =>
    match device.subdev_module with
    | none => some (-EINVAL, sensor_peri)
    | some none => some (-EINVAL, sensor_peri)
    | some (some _) =>
      let af_window_ratio := (sensor_peri.right_y * W + sensor_peri.right_x) % 2 ^ 32
      let virtual_image_size := (W * H / 1000) % 2 ^ 32
      if virtual_image_size = 0 then none
      else
        let timer_setting :=
          (device.valid_time * (af_window_ratio / virtual_image_size)) % 2 ^ 32 / 1000
        let timer_errors :=
          if sensor_peri.timer_check ≠ timer_check_state.HRTIMER_POSSIBLE then
            sensor_peri.timer_errors + 1
          else sensor_peri.timer_errors
        some (0, { sensor_peri with
          timer_errors := timer_errors
          timer_check := timer_check_state.HRTIMER_IMPOSSIBLE
          timer_starts := sensor_peri.timer_starts ++ [timer_setting / 1000] })

/-- Embedding of `fimc_is_actuator_m2m_af_set`, the spec's `on_timer_fire`.
`sensor_peri` is the structure that contains the timer, `device` the hostdata of
its actuator subdev, and `call_m2m` the collaborator
`fimc_is_sensor_peri_call_m2m_actuator`, which may read the flag as it is when
called. The result is the returned `enum hrtimer_restart` and `sensor_peri`
afterwards; `none` stands for `BUG_ON(!device)`. -/
def fimc_is_actuator_m2m_af_set {σ : Type} (call_m2m : timer_check_state → σ → σ)
    (device : Option fimc_is_device_sensor) (sensor_peri : fimc_is_device_sensor_peri σ) :
    Option (hrtimer_restart × fimc_is_device_sensor_peri σ) :=
  match device with
  | none => none
  | some _ =>
    -- Setting M2M AF position
    let called := { sensor_peri with
      commit := call_m2m sensor_peri.timer_check sensor_peri.commit
      m2m_calls := sensor_peri.m2m_calls + 1 }
    some (hrtimer_restart.HRTIMER_NORESTART,
      { called with timer_check := timer_check_state.HRTIMER_POSSIBLE })

end Actuator

namespace Mpu

open Kernel

/-! ## The I2C transport -/

/-- Modelled from the spec: flag `I2C_M_RD` of a read segment, declared with
`struct i2c_msg` outside the file embedded here; a write segment has flags 0. -/
def I2C_M_RD : Nat := 1

/-- Modelled from the spec: the "Transport Segment" `struct i2c_msg`, declared
outside the file embedded here, with the four fields the source assigns. For a
write segment `buf` holds the bytes handed to the bus; for a read segment it
holds the destination buffer as it is before the exchange. -/
structure i2c_msg where
  /-- Target address. -/
  addr : Nat
  /-- Direction: 0 for a write, `I2C_M_RD` for a read. -/
  flags : Nat
  /-- Buffer of the segment. -/
  buf : List Nat
  /-- Length of the segment in bytes. -/
  len : Nat
  deriving DecidableEq

/-- The transport primitive behind `i2c_transfer`, an external collaborator: a
state machine that, in state `t` and given the segments of one exchange, yields
the value `i2c_transfer` returns (the number of completed segments, or a
negative errno), the contents of the read segment's buffer after the exchange,
and its next state. -/
abbrev Transport (σ : Type) : Type := σ → List i2c_msg → Int × List Nat × σ

/-- The bus seen from the driver: the state of the transport and the log of the
exchanges issued so far, oldest first. -/
structure Bus (σ : Type) where
  /-- State of the transport. -/
  state : σ
  /-- Every exchange issued so far. -/
  calls : List (List i2c_msg)

/-- Call `i2c_transfer(st->sl_handle, msgs, num)` with `num` the number of
segments in `msgs`: one exchange, logged. -/
def i2c_transfer {σ : Type} (xfer : Transport σ) (bus : Bus σ) (msgs : List i2c_msg) :
    Int × List Nat × Bus σ :=
  ((xfer bus.state msgs).1, (xfer bus.state msgs).2.1,
    { state := (xfer bus.state msgs).2.2, calls := bus.calls ++ [msgs] })

/-- An exchange that ends in a read segment (the read-back of a verify), as
opposed to an exchange of write segments only. -/
def is_read_exchange (msgs : List i2c_msg) : Bool :=
  msgs.any fun m => m.flags == I2C_M_RD

/-- Number of logged exchanges made of write segments only. -/
def write_exchanges {σ : Type} (bus : Bus σ) : Nat :=
  (bus.calls.filter fun c => !is_read_exchange c).length

/-- Number of logged exchanges that contain a read segment. -/
def read_exchanges {σ : Type} (bus : Bus σ) : Nat :=
  (bus.calls.filter is_read_exchange).length

/-! ## The driver state and the device profile -/

/-- The fields of `struct inv_mpu_state` the embedded functions use: the device
address `i2c_addr`. The adapter handle `sl_handle` is the transport itself. -/
structure inv_mpu_state where
  /-- Field `st->i2c_addr`. -/
  i2c_addr : Nat
  deriving DecidableEq

/-- Register ids `REG_MEM_BANK_SEL`, `REG_MEM_START_ADDR` and `REG_MEM_R_W`
(bank select, offset and data/opcode register), "fixed constants supplied by the
device profile": their definitions are outside the file embedded here, so
they are a parameter. Each is a byte. -/
structure RegMap where
  /-- Bank-select register. -/
  REG_MEM_BANK_SEL : Nat
  /-- Offset register. -/
  REG_MEM_START_ADDR : Nat
  /-- Data register, whose id opens a data segment. -/
  REG_MEM_R_W : Nat
  deriving DecidableEq

/-- Store into a `u8`. -/
def u8 (x : Nat) : Nat := x % 256

/-- Status computed from the value `res` of `i2c_transfer` when `num` segments
were requested: `if (res != num) { if (res >= 0) res = -EIO; } else res = 0;`. -/
def transfer_status (res : Int) (num : Nat) : Int :=
  if res ≠ (num : Int) then (if res ≥ 0 then -EIO_errno else res) else 0

/-! ## `inv_i2c_read_base` and `inv_i2c_single_write_base` -/

/-- The two segments of `inv_i2c_read_base`: the write of the register address
and the read into `data`. -/
def read_base_msgs (i2c_addr reg length : Nat) (data : List Nat) : List i2c_msg :=
  [{ addr := i2c_addr, flags := 0, buf := [reg], len := 1 },
   { addr := i2c_addr, flags := I2C_M_RD, buf := data, len := length }]

/-- Status `inv_i2c_read_base` computes from the value `res` of `i2c_transfer`:
`if (res < 2) { if (res >= 0) res = -EIO; } else res = 0;`. -/
def read_base_status (res : Int) : Int :=
  if res < 2 then (if res ≥ 0 then -EIO_errno else res) else 0

/-- Status `inv_i2c_single_write_base` computes from the value `res` of
`i2c_transfer`: `if (res < 1) { if (res == 0) res = -EIO; return res; } else
return 0;`. -/
def single_write_status (res : Int) : Int :=
  if res < 1 then (if res = 0 then -EIO_errno else res) else 0

/-- Embedding of `inv_i2c_read_base`. The result is the returned `int`, the
caller's buffer `data` afterwards, and the bus afterwards; `none` stands for the
dereference of a NULL `st` in `st->sl_handle`. -/
def inv_i2c_read_base {σ : Type} (xfer : Transport σ) (bus : Bus σ)
    (st : Option inv_mpu_state) (i2c_addr reg length : Nat) (data : Option (List Nat)) :
    Option (Int × Option (List Nat) × Bus σ) :=
  match data with
  | none => some (-EINVAL, none, bus)
  | some d =>
    match st with
    | none => none
    | some _ =>
      let out := i2c_transfer xfer bus (read_base_msgs i2c_addr reg length d)
      some (read_base_status out.1, some out.2.1, out.2.2)

/-- Embedding of `inv_i2c_single_write_base`. The result is the returned `int`
and the bus afterwards; `none` stands for the dereference of a NULL `st` in
`st->sl_handle`. -/
def inv_i2c_single_write_base {σ : Type} (xfer : Transport σ) (bus : Bus σ)
    (st : Option inv_mpu_state) (i2c_addr reg data : Nat) : Option (Int × Bus σ) :=
  match st with
  | none => none
  | some _ =>
    let tmp := [reg, data]
    let msg : i2c_msg := { addr := i2c_addr, flags := 0, buf := tmp, len := 2 }
    let out := i2c_transfer xfer bus [msg]
    some (single_write_status out.1, out.2.2)

/-! ## `_memory_write` and `mpu_memory_read` -/

/-- The three write segments of `_memory_write`. -/
def memory_write_msgs (regs : RegMap) (mpu_addr mem_addr len : Nat) (data : List Nat) :
    List i2c_msg :=
  let bank := [regs.REG_MEM_BANK_SEL, u8 (mem_addr >>> 8)]
  let addr := [regs.REG_MEM_START_ADDR, u8 (mem_addr &&& 0xFF)]
  let buf := regs.REG_MEM_R_W :: data.take len
  [{ addr := mpu_addr, flags := 0, buf := bank, len := 2 },
   { addr := mpu_addr, flags := 0, buf := addr, len := 2 },
   { addr := mpu_addr, flags := 0, buf := buf, len := len + 1 }]

/-- Embedding of `_memory_write`; `sizeof(buf)` is 513. The result is the
returned `int` and the bus afterwards. -/
def _memory_write {σ : Type} (regs : RegMap) (xfer : Transport σ) (bus : Bus σ)
    (st : Option inv_mpu_state) (mpu_addr mem_addr len : Nat) (data : Option (List Nat)) :
    Int × Bus σ :=
  match data, st with
  | some d, some _ =>
    if len ≥ 513 - 1 then
      (-ENOMEM, bus)
    else
      let out := i2c_transfer xfer bus (memory_write_msgs regs mpu_addr mem_addr len d)
      (transfer_status out.1 3, out.2.2)
  | _, _ => (-EINVAL, bus)

/-- The four segments of `mpu_memory_read`: three writes and the read into
`data`. -/
def memory_read_msgs (regs : RegMap) (mpu_addr mem_addr len : Nat) (data : List Nat) :
    List i2c_msg :=
  let bank := [regs.REG_MEM_BANK_SEL, u8 (mem_addr >>> 8)]
  let addr := [regs.REG_MEM_START_ADDR, u8 (mem_addr &&& 0xFF)]
  let buf := [regs.REG_MEM_R_W]
  [{ addr := mpu_addr, flags := 0, buf := bank, len := 2 },
   { addr := mpu_addr, flags := 0, buf := addr, len := 2 },
   { addr := mpu_addr, flags := 0, buf := buf, len := 1 },
   { addr := mpu_addr, flags := I2C_M_RD, buf := data, len := len }]

/-- Embedding of `mpu_memory_read`. The result is the returned `int`, the
caller's buffer `data` afterwards, and the bus afterwards. -/
def mpu_memory_read {σ : Type} (regs : RegMap) (xfer : Transport σ) (bus : Bus σ)
    (st : Option inv_mpu_state) (mpu_addr mem_addr len : Nat) (data : Option (List Nat)) :
    Int × Option (List Nat) × Bus σ :=
  match data, st with
  | some d, some _ =>
    let out := i2c_transfer xfer bus (memory_read_msgs regs mpu_addr mem_addr len d)
    (transfer_status out.1 4, some out.2.1, out.2.2)
  | _, _ => (-EINVAL, data, bus)

/-! ## `mpu_memory_write` -/

/-- The constant `DMP_MEM_CMP_SIZE`. -/
def DMP_MEM_CMP_SIZE : Nat := 16

/-- The compare loop `for (i = 0; i < len; i++) if (data[i] != w[i]) retry = true;`
started with `retry = false`: the value of `retry` after it. -/
def verify_mismatch (len : Nat) (data w : List Nat) : Bool :=
  (List.range len).any fun i => data.getD i 0 != w.getD i 0

/-- Modelled from the spec: the macro `mem_r(a, b, c)`, defined in a header
outside the file embedded here; by the spec it re-reads "via `memory_read`", here
`mpu_memory_read(st, st->i2c_addr, a, b, c)`. Dereferencing a NULL `st` gives
`none`. -/
def mem_r {σ : Type} (regs : RegMap) (xfer : Transport σ) (bus : Bus σ)
    (st : Option inv_mpu_state) (a b : Nat) (c : List Nat) :
    Option (Int × Option (List Nat) × Bus σ) :=
  match st with
  | none => none
  | some s => some (mpu_memory_read regs xfer bus st s.i2c_addr a b (some c))

/-- The loop `while ((j < 3) && retry)` of `mpu_memory_write` and the final
`return r`, started in the state `(j, retry, r, w)`. The first argument bounds
the number of evaluations of the loop condition. `none` stands for a call that
does not return: a NULL dereference (of `st` in `mem_r`, of `data` in the
compare loop), or that bound reached. -/
def mpu_memory_write_loop {σ : Type} (regs : RegMap) (xfer : Transport σ)
    (st : Option inv_mpu_state) (mpu_addr mem_addr len : Nat) (data : Option (List Nat)) :
    Nat → Nat → Bool → Int → List Nat → Bus σ → Option (Int × Bus σ)
  | 0, _, _, _, _, _ => none
  | fuel + 1, j, retry, r, w, bus =>
    if j < 3 ∧ retry = true then
      let wr := _memory_write regs xfer bus st mpu_addr mem_addr len data
      if len < DMP_MEM_CMP_SIZE then
        match mem_r regs xfer wr.2 st mem_addr len w with
        | none => none
        | some rd =>
          let w := rd.2.1.getD w
          match data with
          | none =>
            if len = 0 then
              mpu_memory_write_loop regs xfer st mpu_addr mem_addr len data fuel (j + 1) false
                rd.1 w rd.2.2
            else none
          | some d =>
            mpu_memory_write_loop regs xfer st mpu_addr mem_addr len data fuel (j + 1)
              (verify_mismatch len d w) rd.1 w rd.2.2
      else
        mpu_memory_write_loop regs xfer st mpu_addr mem_addr len data fuel (j + 1) false
          wr.1 w wr.2
    else some (r, bus)

/-- Embedding of `mpu_memory_write`: `j = 0`, `retry = true`, then the loop, whose
condition is evaluated at most four times. `w0` is the content of the local
array `w` at entry; the local `r` is assigned before it is read, so its initial
value 0 is immaterial. -/
def mpu_memory_write {σ : Type} (regs : RegMap) (xfer : Transport σ) (bus : Bus σ)
    (st : Option inv_mpu_state) (mpu_addr mem_addr len : Nat) (data : Option (List Nat))
    (w0 : List Nat) : Option (Int × Bus σ) :=
  mpu_memory_write_loop regs xfer st mpu_addr mem_addr len data 4 0 true 0 w0 bus

/-! ## Mock transports -/

/-- The destination buffer of the read segment of an exchange, as passed in. -/
def read_buf (msgs : List i2c_msg) : List Nat :=
  match msgs.getLast? with
  | some m => m.buf
  | none => []

/-- A scripted mock transport: its state is the list of answers still to give,
one per exchange, each a returned count and, optionally, the data stored in the
read buffer (`none` leaves the buffer as it is). With the script used up it
reports 0 completed segments. -/
def scripted : Transport (List (Int × Option (List Nat)))
  | [], msgs => (0, read_buf msgs, [])
  | (res, rd) :: rest, msgs => (res, rd.getD (read_buf msgs), rest)

/-- A mock transport that completes every exchange and answers every read with
the bytes `mem`; its state counts the exchanges. -/
def completing (mem : List Nat) : Transport Nat :=
  fun n msgs =>
    ((msgs.length : Int), (if is_read_exchange msgs then mem else read_buf msgs), n + 1)

/-- A mock transport that completes every exchange and answers its first two
reads with the bytes `bad` and every later read with the bytes `good`; its state
counts the reads answered. -/
def corrupting (bad good : List Nat) : Transport Nat :=
  fun n msgs =>
    if is_read_exchange msgs then ((msgs.length : Int), (if n < 2 then bad else good), n + 1)
    else ((msgs.length : Int), read_buf msgs, n)

/-- A device profile for the examples. -/
def example_regs : RegMap :=
  { REG_MEM_BANK_SEL := 0x7E, REG_MEM_START_ADDR := 0x7C, REG_MEM_R_W := 0x7D }

/-- The bus after one more exchange. -/
def after {σ : Type} (xfer : Transport σ) (bus : Bus σ) (msgs : List i2c_msg) : Bus σ :=
  { state := (xfer bus.state msgs).2.2, calls := bus.calls ++ [msgs] }

/-- One attempt of a transfer under the verify threshold as the specification
describes it, from the local buffer `w` and the bus `bus`: the three-segment
write exchange, then the four-segment read-back of `len` bytes into `w`. The
result is the status of the read-back, the buffer `w` after it and the bus after
it. -/
def verified_attempt {σ : Type} (regs : RegMap) (xfer : Transport σ) (s : inv_mpu_state)
    (mpu_addr mem_addr len : Nat) (d w : List Nat) (bus : Bus σ) : Int × List Nat × Bus σ :=
  (transfer_status
      (xfer (after xfer bus (memory_write_msgs regs mpu_addr mem_addr len d)).state
        (memory_read_msgs regs s.i2c_addr mem_addr len w)).1 4,
    (xfer (after xfer bus (memory_write_msgs regs mpu_addr mem_addr len d)).state
        (memory_read_msgs regs s.i2c_addr mem_addr len w)).2.1,
    after xfer (after xfer bus (memory_write_msgs regs mpu_addr mem_addr len d))
      (memory_read_msgs regs s.i2c_addr mem_addr len w))

/-- The status, the local buffer and the bus after `k` such attempts in a row,
started with the buffer `w0` on the bus `bus`. -/
def attempts {σ : Type} (regs : RegMap) (xfer : Transport σ) (s : inv_mpu_state)
    (mpu_addr mem_addr len : Nat) (d w0 : List Nat) (bus : Bus σ) :
    Nat → Int × List Nat × Bus σ
  | 0 => (0, w0, bus)
  | k + 1 =>
    verified_attempt regs xfer s mpu_addr mem_addr len d
      (attempts regs xfer s mpu_addr mem_addr len d w0 bus k).2.1
      (attempts regs xfer s mpu_addr mem_addr len d w0 bus k).2.2

end Mpu

namespace Actuator

open Kernel

/-! ## Lemmas on the 32-bit operations -/

theorem shl32_one {n : Nat} (h : n < 32) : shl32 1 n = 2 ^ n := by
  unfold shl32
  rw [Nat.shiftLeft_eq, Nat.one_mul]
  exact Nat.mod_eq_of_lt (Nat.pow_lt_pow_right (by norm_num) h)

theorem sub32_of_le {x y : Nat} (hy : y ≤ x) (hx : x < 2 ^ 32) : sub32 x y = x - y := by
  unfold sub32
  have hy32 : y < 2 ^ 32 := lt_of_le_of_lt hy hx
  rw [Nat.mod_eq_of_lt hy32]
  have : x + 2 ^ 32 - y = (x - y) + 2 ^ 32 := by omega
  rw [this, Nat.add_mod_right]
  exact Nat.mod_eq_of_lt (by omega)

theorem pow_le_pow31 {n : Nat} (h : n < 32) : 2 ^ n ≤ 2 ^ 31 :=
  Nat.pow_le_pow_right (by norm_num) (by omega)

/-- The mask `(1 << n) - 1` for a bit depth under 32. -/
theorem mask32 {n : Nat} (h : n < 32) : sub32 (shl32 1 n) 1 = 2 ^ n - 1 := by
  rw [shl32_one h]
  have := pow_le_pow31 h
  exact sub32_of_le Nat.one_le_two_pow (by norm_num at this ⊢; omega)

/-- Mirroring a value of the target range over that range. -/
theorem mirror32 {n r : Nat} (h : n < 32) (hr : r < 2 ^ n) :
    sub32 (sub32 (shl32 1 n) 1) r = 2 ^ n - 1 - r := by
  rw [mask32 h]
  have := pow_le_pow31 h
  exact sub32_of_le (by omega) (by norm_num at this ⊢; omega)

theorem shl32_widen {pos s t : Nat} (hst : s < t) (ht : t < 32) (hpos : pos < 2 ^ s) :
    shl32 pos (t - s) = pos * 2 ^ (t - s) ∧ pos * 2 ^ (t - s) < 2 ^ t := by
  have hlt : pos * 2 ^ (t - s) < 2 ^ t := by
    have h1 : pos * 2 ^ (t - s) < 2 ^ s * 2 ^ (t - s) :=
      Nat.mul_lt_mul_of_pos_right hpos (Nat.two_pow_pos _)
    have h2 : 2 ^ s * 2 ^ (t - s) = 2 ^ t := by
      rw [← Nat.pow_add]; congr 1; omega
    omega
  refine ⟨?_, hlt⟩
  unfold shl32
  rw [Nat.shiftLeft_eq]
  have := pow_le_pow31 ht
  exact Nat.mod_eq_of_lt (by norm_num at this ⊢; omega)

theorem shr32_narrow {pos s t : Nat} (hst : t < s) (hpos : pos < 2 ^ s) :
    shr32 pos (s - t) = pos / 2 ^ (s - t) ∧ pos / 2 ^ (s - t) < 2 ^ t := by
  refine ⟨by unfold shr32; exact Nat.shiftRight_eq_div_pow _ _, ?_⟩
  rw [Nat.div_lt_iff_lt_mul (Nat.two_pow_pos _)]
  have h2 : 2 ^ t * 2 ^ (s - t) = 2 ^ s := by
    rw [← Nat.pow_add]; congr 1; omega
  omega

/-! ## `fimc_is_actuator_ctl_convert_position`: valid inputs -/

/-- On a valid input both guards are passed. -/
theorem convert_guards {pos s sd td : Nat} (hs : s < 32) (hpos : pos < 2 ^ s)
    (hsd : sd ≤ ACTUATOR_RANGE_MAC_TO_INF) (htd : td ≤ ACTUATOR_RANGE_MAC_TO_INF) :
    ¬ (pos ≥ shl32 1 s) ∧
      ¬ (sd > ACTUATOR_RANGE_MAC_TO_INF ∨ td > ACTUATOR_RANGE_MAC_TO_INF) := by
  rw [shl32_one hs]
  omega

/-- The rescaled magnitude of the specification lies in the target range. -/
theorem rescale_lt {pos s t : Nat} (hpos : pos < 2 ^ s) (ht : t < 32) :
    rescale_spec pos s t < 2 ^ t := by
  unfold rescale_spec
  by_cases h1 : s < t
  · simp only [h1, if_true, Nat.shiftLeft_eq]
    exact (shl32_widen h1 ht hpos).2
  · by_cases h2 : s > t
    · simp only [h1, h2, if_true, if_false, Nat.shiftRight_eq_div_pow]
      exact (shr32_narrow h2 hpos).2
    · have hst : s = t := by omega
      simp only [h1, h2, if_false]
      rw [← hst]; exact hpos

/-- On a valid input the shifts of the code lose no high bit: they compute the
rescaled magnitude of the specification. -/
theorem rescale_eq {pos s t : Nat} (hpos : pos < 2 ^ s) (ht : t < 32) :
    (if s < t then shl32 pos (t - s) else if s > t then shr32 pos (s - t) else pos)
      = rescale_spec pos s t := by
  unfold rescale_spec
  by_cases h1 : s < t
  · simp only [h1, if_true, Nat.shiftLeft_eq]; exact (shl32_widen h1 ht hpos).1
  · by_cases h2 : s > t
    · simp only [h1, h2, if_true, if_false, Nat.shiftRight_eq_div_pow]
      exact (shr32_narrow h2 hpos).1
    · simp only [h1, h2, if_false]

/-- On a valid input the code succeeds and computes the value of the
specification, which lies in the target range. -/
theorem convert_valid {pos s sd t td : Nat} (hs : s < 32) (ht : t < 32)
    (hpos : pos < 2 ^ s) (hsd : sd ≤ ACTUATOR_RANGE_MAC_TO_INF)
    (htd : td ≤ ACTUATOR_RANGE_MAC_TO_INF) :
    fimc_is_actuator_ctl_convert_position pos s sd t td
        = (0, convert_position_spec pos s sd t td) ∧
      convert_position_spec pos s sd t td < 2 ^ t := by
  obtain ⟨g1, g2⟩ := convert_guards hs hpos hsd htd
  have hr := rescale_lt (s := s) hpos ht
  unfold fimc_is_actuator_ctl_convert_position convert_position_spec
  simp only [g1, g2, if_false, rescale_eq hpos ht]
  by_cases hd : sd = td
  · simp only [hd, ne_eq, not_true_eq_false, if_false, true_and]
    exact hr
  · simp only [ne_eq, hd, not_false_eq_true, if_true]
    rw [mirror32 ht hr]
    exact ⟨rfl, by omega⟩

/-! ## Properties of `fimc_is_actuator_ctl_convert_position` -/

/-- C1: for every bit depth `bits < 32`, every `pos < 2 ^ bits` and every pair of
recognised directions, converting from `(bits, dir)` to `(bits, dir2)` succeeds,
and converting the result back to `(bits, dir)` succeeds and stores the original
`pos`; with `dir ≠ dir2` this is the mirror applied twice. -/
theorem convert_position_round_trip (pos bits dir dir2 : Nat) (hbits : bits < 32)
    (hpos : pos < 2 ^ bits) (hdir : dir ≤ ACTUATOR_RANGE_MAC_TO_INF)
    (hdir2 : dir2 ≤ ACTUATOR_RANGE_MAC_TO_INF) :
    (fimc_is_actuator_ctl_convert_position pos bits dir bits dir2).1 = 0 ∧
      fimc_is_actuator_ctl_convert_position
        (fimc_is_actuator_ctl_convert_position pos bits dir bits dir2).2
        bits dir2 bits dir = (0, pos) := by
  obtain ⟨h1, hlt⟩ := convert_valid hbits hbits hpos hdir hdir2
  obtain ⟨h2, _⟩ := convert_valid hbits hbits hlt hdir2 hdir
  rw [h1]
  refine ⟨rfl, ?_⟩
  rw [h2]
  congr 1
  unfold convert_position_spec rescale_spec
  simp only [lt_irrefl, gt_iff_lt, if_false]
  by_cases hd : dir = dir2
  · simp [hd]
  · have hd2 : dir2 ≠ dir := fun h => hd h.symm
    simp only [ne_eq, hd, hd2, not_false_eq_true, if_true]
    omega

/-- Instance of C1: 100 on a 10-bit scale, mirrored and mirrored back. -/
theorem convert_position_round_trip_witness :
    fimc_is_actuator_ctl_convert_position
        (fimc_is_actuator_ctl_convert_position 100 10 0 10 1).2 10 1 10 0 = (0, 100) :=
  (convert_position_round_trip 100 10 0 1 (by decide) (by decide) (by decide) (by decide)).2

/-- C2: on every valid input (`pos < 2 ^ src_bits`, both directions recognised,
both bit depths under 32) the conversion returns success and stores the value of
the specification: `pos` shifted left by `tgt_bits - src_bits`, or right by
`src_bits - tgt_bits`, or unchanged, then subtracted from `2 ^ tgt_bits - 1` when
the directions differ. The shifted value is at most `2 ^ tgt_bits - 1`, so neither
step wraps around 32 bits. For instance 100 on a 10-bit scale becomes 230 on an
8-bit scale of the other direction. -/
theorem convert_position_refines_spec (pos src_bits src_dir tgt_bits tgt_dir : Nat)
    (hs : src_bits < 32) (ht : tgt_bits < 32) (hpos : pos < 2 ^ src_bits)
    (hsd : src_dir ≤ ACTUATOR_RANGE_MAC_TO_INF) (htd : tgt_dir ≤ ACTUATOR_RANGE_MAC_TO_INF) :
    fimc_is_actuator_ctl_convert_position pos src_bits src_dir tgt_bits tgt_dir
        = (0, convert_position_spec pos src_bits src_dir tgt_bits tgt_dir) ∧
      rescale_spec pos src_bits tgt_bits ≤ 2 ^ tgt_bits - 1 ∧
      fimc_is_actuator_ctl_convert_position 100 10 ACTUATOR_RANGE_INF_TO_MAC
        8 ACTUATOR_RANGE_MAC_TO_INF = (0, 230) ∧
      fimc_is_actuator_ctl_convert_position 100 10 ACTUATOR_RANGE_MAC_TO_INF
        8 ACTUATOR_RANGE_INF_TO_MAC = (0, 230) :=
  ⟨(convert_valid hs ht hpos hsd htd).1,
    Nat.le_sub_one_of_lt (rescale_lt (s := src_bits) hpos ht), by decide, by decide⟩

/-- Instance of C2: widening 5 from 3 to 6 bits with a change of direction gives
`63 - 40 = 23`. -/
theorem convert_position_refines_spec_witness :
    fimc_is_actuator_ctl_convert_position 5 3 0 6 1 = (0, 23) :=
  (convert_position_refines_spec 5 3 0 6 1 (by decide) (by decide) (by decide)
    (by decide) (by decide)).1

/-- C3: for a source bit depth under 32 the conversion returns `-EINVAL` exactly
when `pos ≥ 2 ^ src_bits` or one of the two directions is greater than
`ACTUATOR_RANGE_MAC_TO_INF`; it returns 0 otherwise, and whenever it returns
`-EINVAL` the caller's position is the one passed in. -/
theorem convert_position_einval_iff (pos src_bits src_dir tgt_bits tgt_dir : Nat)
    (hs : src_bits < 32) :
    ((fimc_is_actuator_ctl_convert_position pos src_bits src_dir tgt_bits tgt_dir).1
          = -EINVAL ↔
        (pos ≥ 2 ^ src_bits ∨ src_dir > ACTUATOR_RANGE_MAC_TO_INF ∨
          tgt_dir > ACTUATOR_RANGE_MAC_TO_INF)) ∧
      ((fimc_is_actuator_ctl_convert_position pos src_bits src_dir tgt_bits tgt_dir).1
          ≠ -EINVAL →
        (fimc_is_actuator_ctl_convert_position pos src_bits src_dir tgt_bits tgt_dir).1 = 0) ∧
      ((fimc_is_actuator_ctl_convert_position pos src_bits src_dir tgt_bits tgt_dir).1
          = -EINVAL →
        (fimc_is_actuator_ctl_convert_position pos src_bits src_dir tgt_bits tgt_dir).2
          = pos) := by
  unfold fimc_is_actuator_ctl_convert_position
  rw [shl32_one hs]
  by_cases h1 : pos ≥ 2 ^ src_bits
  · simp [h1]
  · by_cases h2 : src_dir > ACTUATOR_RANGE_MAC_TO_INF ∨ tgt_dir > ACTUATOR_RANGE_MAC_TO_INF
    · simp only [h1, h2, if_true, if_false, or_true, iff_true, true_and, implies_true,
        and_true]
      intro h; exact absurd rfl h
    · simp [h1, h2, EINVAL]

/-- Instance of C3: 256 does not fit 8 bits, so the call fails and keeps 256. -/
theorem convert_position_einval_iff_witness :
    fimc_is_actuator_ctl_convert_position 256 8 0 10 1 = (-EINVAL, 256) := by
  have h := convert_position_einval_iff 256 8 0 10 1 (by decide)
  have h1 := h.1.2 (Or.inl (by decide))
  exact Prod.ext h1 (h.2.2 h1)

/-! ## `fimc_is_actuator_ctl_search_position`: the loop -/

theorem wrap_int_eq {x : Int} (h1 : -2 ^ 31 ≤ x) (h2 : x < 2 ^ 31) : wrap_int x = x := by
  unfold wrap_int
  norm_num at h1 h2 ⊢
  omega

theorem u32_of_int_eq {x : Int} (h1 : 0 ≤ x) (h2 : x < 2 ^ 32) :
    u32_of_int x = x.toNat := by
  unfold u32_of_int
  rw [Int.emod_eq_of_lt h1 h2]

/-- The midpoint `(right + left) >> 1` of a non-empty window inside the table. -/
theorem midpoint_bounds {N : Nat} {left right : Int} (hN : N ≤ 2 ^ 30)
    (hl : 0 ≤ left) (hr : right < N) (hlr : left ≤ right) :
    left ≤ wrap_int (right + left) >>> (1 : Nat) ∧
      wrap_int (right + left) >>> (1 : Nat) ≤ right := by
  have hN2 : (N : Int) ≤ 2 ^ 30 := by exact_mod_cast hN
  rw [wrap_int_eq (by norm_num at hN2 ⊢; omega) (by norm_num at hN2 ⊢; omega)]
  rw [Int.shiftRight_eq_div_pow]
  norm_num
  omega

theorem search_loop_step (N position : Nat) (tbl : List Nat) (direction fuel : Nat)
    (left right middle : Int) :
    search_loop N position tbl direction (fuel + 1) left right middle =
      if right ≥ left then
        if wrap_int (right + left) >>> (1 : Nat) < 0 ∨
            wrap_int (right + left) >>> (1 : Nat) ≥ (N : Int) then
          some (-EINVAL, 0)
        else if position = table_at tbl (wrap_int (right + left) >>> (1 : Nat)) then
          some (0, u32_of_int (wrap_int (right + left) >>> (1 : Nat)))
        else if goes_left direction position
            (table_at tbl (wrap_int (right + left) >>> (1 : Nat))) then
          search_loop N position tbl direction fuel left
            (wrap_int (wrap_int (right + left) >>> (1 : Nat) - 1))
            (wrap_int (right + left) >>> (1 : Nat))
        else
          search_loop N position tbl direction fuel
            (wrap_int (wrap_int (right + left) >>> (1 : Nat) + 1)) right
            (wrap_int (right + left) >>> (1 : Nat))
      else some (0, u32_of_int middle) := by
  rw [search_loop]
  unfold goes_left
  dsimp only
  split_ifs <;> rfl

theorem not_goes_left_iff {direction position v : Nat} (hne : position ≠ v) :
    ¬ goes_left direction position v ↔ is_before direction position v := by
  unfold goes_left is_before
  split_ifs <;> omega

theorem is_before_ne {direction position v : Nat} (h : is_before direction position v) :
    position ≠ v ∧ ¬ goes_left direction position v := by
  unfold goes_left is_before at *
  split_ifs at h ⊢ <;> omega

theorem goes_left_ne {direction position v : Nat} (h : goes_left direction position v) :
    position ≠ v := by
  unfold goes_left at h
  split_ifs at h <;> omega

theorem sorted_getD {direction : Nat} {tbl : List Nat} (hs : SortedIn direction tbl)
    {a b : Nat} (hab : a ≤ b) (hb : b < tbl.length) :
    if direction = ACTUATOR_RANGE_INF_TO_MAC then tbl.getD a 0 ≤ tbl.getD b 0
    else tbl.getD a 0 ≥ tbl.getD b 0 := by
  have ha : a < tbl.length := lt_of_le_of_lt hab hb
  rw [List.getD_eq_getElem _ _ ha, List.getD_eq_getElem _ _ hb]
  unfold SortedIn at hs
  rcases Nat.eq_or_lt_of_le hab with h | h
  · subst h; split_ifs <;> exact le_refl _
  · split_ifs at hs ⊢
    · exact (List.pairwise_iff_getElem.mp hs) a b ha hb h
    · exact (List.pairwise_iff_getElem.mp hs) a b ha hb h

/-- Entries after one that sends the search left send it left as well. -/
theorem goes_left_mono {direction position : Nat} {tbl : List Nat}
    (hs : SortedIn direction tbl) {a b : Nat} (hab : a ≤ b) (hb : b < tbl.length)
    (h : goes_left direction position (tbl.getD a 0)) :
    goes_left direction position (tbl.getD b 0) := by
  have := sorted_getD hs hab hb
  unfold goes_left at *
  split_ifs at * <;> omega

/-- Entries before one that precedes the position precede it as well. -/
theorem is_before_mono {direction position : Nat} {tbl : List Nat}
    (hs : SortedIn direction tbl) {a b : Nat} (hab : a ≤ b) (hb : b < tbl.length)
    (h : is_before direction position (tbl.getD b 0)) :
    is_before direction position (tbl.getD a 0) := by
  have := sorted_getD hs hab hb
  unfold is_before at *
  split_ifs at * <;> omega

theorem search_loop_exit (N position : Nat) (tbl : List Nat) (direction fuel : Nat)
    {left right : Int} (middle : Int) (h : right < left) :
    search_loop N position tbl direction (fuel + 1) left right middle
      = some (0, u32_of_int middle) := by
  rw [search_loop_step, if_neg (by omega)]

/-- One iteration on a non-empty window inside the table: the midpoint `m` lies
in the window, and the loop either stops at `m` or continues on a side of it. -/
theorem search_loop_window {N : Nat} (position : Nat) (tbl : List Nat) (direction fuel : Nat)
    {left right : Int} (middle : Int) (hN : N ≤ 2 ^ 30)
    (hl : 0 ≤ left) (hr : right < N) (hlr : left ≤ right) :
    ∃ m : Nat, left ≤ m ∧ (m : Int) ≤ right ∧
      search_loop N position tbl direction (fuel + 1) left right middle =
        if position = tbl.getD m 0 then some (0, m)
        else if goes_left direction position (tbl.getD m 0) then
          search_loop N position tbl direction fuel left ((m : Int) - 1) m
        else search_loop N position tbl direction fuel ((m : Int) + 1) right m := by
  obtain ⟨h1, h2⟩ := midpoint_bounds hN hl hr hlr
  have hN2 : (N : Int) ≤ 2 ^ 30 := by exact_mod_cast hN
  generalize hmid : wrap_int (right + left) >>> (1 : Nat) = mid at h1 h2
  have hm : ((mid.toNat : Nat) : Int) = mid := Int.toNat_of_nonneg (by omega)
  refine ⟨mid.toNat, by omega, by omega, ?_⟩
  rw [search_loop_step, if_pos (by omega), hmid, if_neg (by omega)]
  rw [u32_of_int_eq (by omega) (by norm_num at hN2 ⊢; omega)]
  rw [wrap_int_eq (by norm_num at hN2 ⊢; omega) (by norm_num at hN2 ⊢; omega)]
  rw [wrap_int_eq (by norm_num at hN2 ⊢; omega) (by norm_num at hN2 ⊢; omega)]
  rw [hm]
  rfl

/-- A window that contains an index holding `position` is searched successfully,
and the index found holds `position`. -/
theorem search_loop_finds {N position direction : Nat} {tbl : List Nat} (hN : N ≤ 2 ^ 30)
    (hlen : tbl.length = N) (hs : SortedIn direction tbl) {i : Nat}
    (hpos : position = tbl.getD i 0) :
    ∀ (fuel : Nat) (left right middle : Int), 0 ≤ left → right < N → left ≤ i →
      (i : Int) ≤ right → right - left + 1 < fuel →
      ∃ j, j < N ∧ tbl.getD j 0 = position ∧
        search_loop N position tbl direction fuel left right middle = some (0, j) := by
  intro fuel
  induction fuel with
  | zero => intro left right middle hl hr hli hir hf; omega
  | succ fuel ih =>
    intro left right middle hl hr hli hir hf
    obtain ⟨m, hm1, hm2, hstep⟩ :=
      search_loop_window position tbl direction fuel middle hN hl hr (by omega)
    rw [hstep]
    by_cases heq : position = tbl.getD m 0
    · rw [if_pos heq]; exact ⟨m, by omega, heq.symm, rfl⟩
    · rw [if_neg heq]
      by_cases hg : goes_left direction position (tbl.getD m 0)
      · rw [if_pos hg]
        have him : i < m := by
          by_contra hcon
          have h := goes_left_mono hs (Nat.le_of_not_lt hcon) (by omega) hg
          rw [← hpos] at h
          exact goes_left_ne h rfl
        exact ih left (m - 1) m hl (by omega) hli (by omega) (by omega)
      · rw [if_neg hg]
        have hb := (not_goes_left_iff heq).mp hg
        have him : m < i := by
          by_contra hcon
          have h := is_before_mono hs (Nat.le_of_not_lt hcon) (by omega) hb
          rw [← hpos] at h
          exact (is_before_ne h).1 rfl
        exact ih (m + 1) right m (by omega) hr (by omega) hir (by omega)

/-- A window around the gap between `i` and `i + 1`, where `position` falls, is
left with the last midpoint equal to `i` or to `i + 1`. -/
theorem search_loop_brackets {N position direction : Nat} {tbl : List Nat} (hN : N ≤ 2 ^ 30)
    (hlen : tbl.length = N) (hs : SortedIn direction tbl) {i : Nat} (hi : i + 1 < N)
    (hb : is_before direction position (tbl.getD i 0))
    (ha : goes_left direction position (tbl.getD (i + 1) 0)) :
    ∀ (fuel : Nat) (left right middle : Int), 0 ≤ left → right < N → left ≤ i + 1 →
      (i : Int) ≤ right →
      (left ≤ right ∨ (left = right + 1 ∧ (middle = i ∨ middle = i + 1))) →
      right - left + 1 < fuel →
      ∃ j, (j = i ∨ j = i + 1) ∧
        search_loop N position tbl direction fuel left right middle = some (0, j) := by
  have hN2 : (N : Int) ≤ 2 ^ 30 := by exact_mod_cast hN
  intro fuel
  induction fuel with
  | zero => intro left right middle hl hr hli hir hw hf; omega
  | succ fuel ih =>
    intro left right middle hl hr hli hir hw hf
    by_cases hlr : left ≤ right
    · obtain ⟨m, hm1, hm2, hstep⟩ :=
        search_loop_window position tbl direction fuel middle hN hl hr hlr
      rw [hstep]
      by_cases hmi : m ≤ i
      · have hbm := is_before_ne (is_before_mono hs hmi (by omega) hb)
        rw [if_neg hbm.1, if_neg hbm.2]
        exact ih (m + 1) right m (by omega) hr (by omega) hir (by omega) (by omega)
      · have hgm := goes_left_mono hs (show i + 1 ≤ m by omega) (by omega) ha
        rw [if_neg (goes_left_ne hgm), if_pos hgm]
        exact ih left (m - 1) m hl (by omega) hli (by omega) (by omega) (by omega)
    · rw [search_loop_exit _ _ _ _ _ _ (by omega)]
      rcases hw with h | ⟨_, h | h⟩
      · exact absurd h hlr
      · refine ⟨i, Or.inl rfl, ?_⟩
        rw [h, u32_of_int_eq (by omega) (by norm_num at hN2 ⊢; omega)]
        rfl
      · refine ⟨i + 1, Or.inr rfl, ?_⟩
        rw [h, u32_of_int_eq (by omega) (by norm_num at hN2 ⊢; omega)]
        rfl

theorem search_position_eq {N : Nat} (position : Nat) (tbl : List Nat) (direction : Nat)
    (hN : N ≤ 2 ^ 30) :
    fimc_is_actuator_ctl_search_position N position tbl direction
      = search_loop N position tbl direction (N + 1) 0 ((N : Int) - 1) 0 := by
  have hN2 : (N : Int) ≤ 2 ^ 30 := by exact_mod_cast hN
  unfold fimc_is_actuator_ctl_search_position
  rw [wrap_int_eq (by norm_num at hN2 ⊢; omega) (by norm_num at hN2 ⊢; omega)]

/-! ## Properties of `fimc_is_actuator_ctl_search_position` -/

/-- C4 (amended): in a table of `N` entries that is monotonic in the declared
direction, searching the value `table[i]` of any index `i < N` returns success
with an index `j < N` holding that value, `table[j] = table[i]`; `j` is exactly
`i` whenever `table[i]` occurs at no other index, as in every strictly monotonic
table. In the ascending table `[10, 20, 30, 40]` searching 20 gives index 1.
`N ≤ 2 ^ 30` keeps `right + left` inside the range of `int`. -/
theorem search_position_finds_value (N : Nat) (position_table : List Nat) (direction i : Nat)
    (hN : N ≤ 2 ^ 30) (hlen : position_table.length = N)
    (hsorted : SortedIn direction position_table) (hi : i < N) :
    (∃ j, j < N ∧ position_table.getD j 0 = position_table.getD i 0 ∧
        fimc_is_actuator_ctl_search_position N (position_table.getD i 0) position_table
          direction = some (0, j) ∧
        ((∀ k, k < N → position_table.getD k 0 = position_table.getD i 0 → k = i) → j = i)) ∧
      fimc_is_actuator_ctl_search_position 4 20 [10, 20, 30, 40]
        ACTUATOR_RANGE_INF_TO_MAC = some (0, 1) := by
  refine ⟨?_, by decide⟩
  rw [search_position_eq _ _ _ hN]
  obtain ⟨j, hj, hval, hres⟩ :=
    search_loop_finds (i := i) hN hlen hsorted rfl (N + 1) 0 ((N : Int) - 1) 0 (le_refl _)
      (by omega) (by omega) (by omega) (by omega)
  exact ⟨j, hj, hval, hres, fun huniq => huniq j hj hval⟩

/-- Instance of C4 (amended): in the strictly descending table `[40, 30, 20, 10]`
the entry of index 2 is found at index 2. -/
theorem search_position_finds_value_witness :
    fimc_is_actuator_ctl_search_position 4 ([40, 30, 20, 10].getD 2 0) [40, 30, 20, 10]
      ACTUATOR_RANGE_MAC_TO_INF = some (0, 2) := by
  obtain ⟨j, _, _, hres, huniq⟩ :=
    (search_position_finds_value 4 [40, 30, 20, 10] ACTUATOR_RANGE_MAC_TO_INF 2 (by decide) rfl
      (by simp [SortedIn, ACTUATOR_RANGE_MAC_TO_INF, ACTUATOR_RANGE_INF_TO_MAC]) (by decide)).1
  rw [hres, huniq (by decide)]

/-- C4 as stated fails on a sorted table with a repeated entry: `[10, 10, 20, 30]`
is ascending, and searching `table[0] = 10` stops at the first midpoint, index 1,
not at index 0. -/
theorem search_position_exact_counterexample :
    SortedIn ACTUATOR_RANGE_INF_TO_MAC [10, 10, 20, 30] ∧
      [10, 10, 20, 30].length = 4 ∧
      fimc_is_actuator_ctl_search_position 4 ([10, 10, 20, 30].getD 0 0) [10, 10, 20, 30]
        ACTUATOR_RANGE_INF_TO_MAC = some (0, 1) ∧
      fimc_is_actuator_ctl_search_position 4 ([10, 10, 20, 30].getD 0 0) [10, 10, 20, 30]
        ACTUATOR_RANGE_INF_TO_MAC ≠ some (0, 0) :=
  ⟨by simp [SortedIn], rfl, by decide, by decide⟩

/-- C5: in a table of `N` entries monotonic in the declared direction, for every
`i` with `i + 1 < N` and every position strictly between `table[i]` and
`table[i + 1]` in that direction's order, the search returns success with a
searched index that is `i` or `i + 1`. `N ≤ 2 ^ 30` keeps `right + left` inside
the range of `int`. -/
theorem search_position_brackets (N : Nat) (position_table : List Nat)
    (direction i position : Nat) (hN : N ≤ 2 ^ 30) (hlen : position_table.length = N)
    (hsorted : SortedIn direction position_table) (hi : i + 1 < N)
    (hbetween : StrictlyBetween direction position (position_table.getD i 0)
      (position_table.getD (i + 1) 0)) :
    ∃ j, (j = i ∨ j = i + 1) ∧
      fimc_is_actuator_ctl_search_position N position position_table direction
        = some (0, j) := by
  have hb : is_before direction position (position_table.getD i 0) := by
    unfold StrictlyBetween at hbetween
    unfold is_before
    split_ifs at hbetween ⊢ <;> exact hbetween.1
  have ha : goes_left direction position (position_table.getD (i + 1) 0) := by
    unfold StrictlyBetween at hbetween
    unfold goes_left
    split_ifs at hbetween ⊢ <;> exact hbetween.2
  rw [search_position_eq _ _ _ hN]
  exact search_loop_brackets hN hlen hsorted hi hb ha (N + 1) 0 ((N : Int) - 1) 0 (le_refl _)
    (by omega) (by omega) (by omega) (Or.inl (by omega)) (by omega)

/-- Instance of C5: 25 lies between entries 1 and 2 of `[10, 20, 30, 40]`. -/
theorem search_position_brackets_witness :
    fimc_is_actuator_ctl_search_position 4 25 [10, 20, 30, 40]
        ACTUATOR_RANGE_INF_TO_MAC = some (0, 1) ∨
      fimc_is_actuator_ctl_search_position 4 25 [10, 20, 30, 40]
        ACTUATOR_RANGE_INF_TO_MAC = some (0, 2) := by
  obtain ⟨j, hj | hj, hres⟩ :=
    search_position_brackets 4 [10, 20, 30, 40] ACTUATOR_RANGE_INF_TO_MAC 1 25 (by decide) rfl
      (by simp [SortedIn]) (by decide) (by simp [StrictlyBetween])
  · exact Or.inl (by rw [hres, hj])
  · exact Or.inr (by rw [hres, hj])

/-! ## `fimc_is_actuator_ctl_search_position`: totality -/

/-- From a window inside the table and a last midpoint inside the table, the
loop returns success with an index inside the table, whatever the entries. -/
theorem search_loop_total {N : Nat} (position : Nat) (tbl : List Nat) (direction : Nat)
    (hN : N ≤ 2 ^ 30) :
    ∀ (fuel : Nat) (left right middle : Int), 0 ≤ left → right < N → left ≤ right + 1 →
      0 ≤ middle → middle < N → right - left + 1 < fuel →
      ∃ j, j < N ∧ search_loop N position tbl direction fuel left right middle = some (0, j) := by
  have hN2 : (N : Int) ≤ 2 ^ 30 := by exact_mod_cast hN
  intro fuel
  induction fuel with
  | zero => intro left right middle hl hr hlr hm0 hm1 hf; omega
  | succ fuel ih =>
    intro left right middle hl hr hlr hm0 hm1 hf
    by_cases hw : left ≤ right
    · obtain ⟨m, hm1, hm2, hstep⟩ :=
        search_loop_window position tbl direction fuel middle hN hl hr hw
      rw [hstep]
      split_ifs
      · exact ⟨m, by omega, rfl⟩
      · exact ih left (m - 1) m hl (by omega) (by omega) (by omega) (by omega) (by omega)
      · exact ih (m + 1) right m (by omega) hr (by omega) (by omega) (by omega) (by omega)
    · rw [search_loop_exit _ _ _ _ _ _ (by omega)]
      refine ⟨middle.toNat, by omega, ?_⟩
      rw [u32_of_int_eq hm0 (by norm_num at hN2 ⊢; omega)]

/-! ## `fimc_is_actuator_ctl_convert_position`: widening -/

/-- Shifting left and then right by the same count gives the value back. -/
theorem shift_back (pos k : Nat) : (pos <<< k) >>> k = pos := by
  rw [Nat.shiftLeft_eq, Nat.shiftRight_eq_div_pow]
  exact Nat.mul_div_cancel pos (Nat.two_pow_pos k)

/-- Shifting the mirror of a widened value back gives the mirror of the value. -/
theorem mirror_shift_back {pos b b2 : Nat} (hb : b ≤ b2) (hpos : pos < 2 ^ b) :
    (2 ^ b2 - 1 - pos <<< (b2 - b)) >>> (b2 - b) = 2 ^ b - 1 - pos := by
  rw [Nat.shiftLeft_eq, Nat.shiftRight_eq_div_pow]
  have ha : 0 < 2 ^ (b2 - b) := Nat.two_pow_pos _
  have hsplit : 2 ^ b2 = 2 ^ b * 2 ^ (b2 - b) := by
    rw [← Nat.pow_add]; congr 1; omega
  obtain ⟨c, hc⟩ : ∃ c, 2 ^ b = pos + 1 + c := ⟨2 ^ b - 1 - pos, by omega⟩
  have hcq : 2 ^ b - 1 - pos = c := by omega
  rw [hcq, hsplit, hc]
  have e1 : (pos + 1 + c) * 2 ^ (b2 - b)
      = pos * 2 ^ (b2 - b) + 2 ^ (b2 - b) + c * 2 ^ (b2 - b) := by ring
  have e2 : (c + 1) * 2 ^ (b2 - b) = c * 2 ^ (b2 - b) + 2 ^ (b2 - b) := by ring
  apply Nat.div_eq_of_lt_le
  · rw [e1]; omega
  · rw [e1, e2]; omega

/-! ## Further properties of the position engine -/

/-- C16: for every position, every direction value and every table, sorted or
not, with a capacity `N ≥ 1`, the search ends and returns success with a
searched index in `[0, N)`: no midpoint falls outside the table, so the
`-EINVAL` branch is never taken. `N ≤ 2 ^ 30` keeps `right + left` inside the
range of `int`. -/
theorem search_position_total (N position : Nat) (position_table : List Nat)
    (direction : Nat) (hN1 : 1 ≤ N) (hN : N ≤ 2 ^ 30) :
    ∃ j, j < N ∧
      fimc_is_actuator_ctl_search_position N position position_table direction
        = some (0, j) := by
  rw [search_position_eq _ _ _ hN]
  exact search_loop_total position position_table direction hN (N + 1) 0 ((N : Int) - 1) 0
    (le_refl _) (by omega) (by omega) (le_refl _) (by omega) (by omega)

/-- Instance of C16: an unsorted table and an unrecognised direction value. -/
theorem search_position_total_witness :
    (fimc_is_actuator_ctl_search_position 5 7 [9, 1, 8, 2, 6] 3).map
      (fun out => (out.1, decide (out.2 < 5))) = some (0, true) := by
  obtain ⟨j, hj, h⟩ := search_position_total 5 7 [9, 1, 8, 2, 6] 3 (by decide) (by decide)
  rw [h]
  simp [hj]

/-- C17: on every valid input (`pos < 2 ^ src_bits`, recognised directions, both
bit depths under 32) the conversion succeeds and the converted position is a
coordinate of the target system, below `2 ^ tgt_bits`. Nothing wraps around 32
bits: the shifted value is the one of unbounded arithmetic and is at most
`2 ^ tgt_bits - 1`, the value the mirror subtracts it from. -/
theorem convert_position_in_range (pos src_bits src_dir tgt_bits tgt_dir : Nat)
    (hs : src_bits < 32) (ht : tgt_bits < 32) (hpos : pos < 2 ^ src_bits)
    (hsd : src_dir ≤ ACTUATOR_RANGE_MAC_TO_INF) (htd : tgt_dir ≤ ACTUATOR_RANGE_MAC_TO_INF) :
    (fimc_is_actuator_ctl_convert_position pos src_bits src_dir tgt_bits tgt_dir).1 = 0 ∧
      (fimc_is_actuator_ctl_convert_position pos src_bits src_dir tgt_bits tgt_dir).2
        < 2 ^ tgt_bits ∧
      (if src_bits < tgt_bits then shl32 pos (tgt_bits - src_bits)
        else if src_bits > tgt_bits then shr32 pos (src_bits - tgt_bits) else pos)
        = rescale_spec pos src_bits tgt_bits ∧
      rescale_spec pos src_bits tgt_bits ≤ 2 ^ tgt_bits - 1 ∧
      2 ^ tgt_bits - 1 < 2 ^ 32 := by
  obtain ⟨h1, hlt⟩ := convert_valid hs ht hpos hsd htd
  rw [h1]
  have h31 := pow_le_pow31 ht
  exact ⟨rfl, hlt, rescale_eq hpos ht,
    Nat.le_sub_one_of_lt (rescale_lt (s := src_bits) hpos ht), by norm_num at h31 ⊢; omega⟩

/-- Instance of C17: 1023, the top of a 10-bit scale, mirrored onto 4 bits. -/
theorem convert_position_in_range_witness :
    (fimc_is_actuator_ctl_convert_position 1023 10 0 4 1).2 < 2 ^ 4 :=
  (convert_position_in_range 1023 10 0 4 1 (by decide) (by decide) (by decide) (by decide)
    (by decide)).2.1

/-- C18: for bit depths `bits ≤ bits2 < 32`, every `pos < 2 ^ bits` and every pair
of recognised directions, equal or not, converting from `(bits, dir)` to the
wider `(bits2, dir2)` succeeds, and converting the result back to `(bits, dir)`
succeeds and stores `pos`. -/
theorem convert_position_widen_round_trip (pos bits bits2 dir dir2 : Nat)
    (hle : bits ≤ bits2) (hb2 : bits2 < 32) (hpos : pos < 2 ^ bits)
    (hdir : dir ≤ ACTUATOR_RANGE_MAC_TO_INF) (hdir2 : dir2 ≤ ACTUATOR_RANGE_MAC_TO_INF) :
    (fimc_is_actuator_ctl_convert_position pos bits dir bits2 dir2).1 = 0 ∧
      fimc_is_actuator_ctl_convert_position
        (fimc_is_actuator_ctl_convert_position pos bits dir bits2 dir2).2
        bits2 dir2 bits dir = (0, pos) := by
  have hb : bits < 32 := by omega
  obtain ⟨h1, hlt⟩ := convert_valid hb hb2 hpos hdir hdir2
  obtain ⟨h2, _⟩ := convert_valid hb2 hb hlt hdir2 hdir
  rw [h1]
  refine ⟨rfl, ?_⟩
  rw [h2]
  congr 1
  have hback : ∀ x, rescale_spec x bits2 bits = x >>> (bits2 - bits) := by
    intro x
    unfold rescale_spec
    rcases Nat.eq_or_lt_of_le hle with h | h
    · subst h; simp
    · rw [if_neg (by omega), if_pos h]
  have hwide : rescale_spec pos bits bits2 = pos <<< (bits2 - bits) := by
    unfold rescale_spec
    rcases Nat.eq_or_lt_of_le hle with h | h
    · subst h; simp
    · rw [if_pos h]
  unfold convert_position_spec
  rw [hwide]
  by_cases hd : dir = dir2
  · subst hd
    simp only [ne_eq, not_true_eq_false, if_false, hback, shift_back]
  · have hd2 : dir2 ≠ dir := fun h => hd h.symm
    simp only [ne_eq, hd, hd2, not_false_eq_true, if_true, hback, mirror_shift_back hle hpos]
    omega

/-- Instance of C18: 5 on a 3-bit scale, widened to 6 bits with a change of
direction and converted back. -/
theorem convert_position_widen_round_trip_witness :
    fimc_is_actuator_ctl_convert_position
        (fimc_is_actuator_ctl_convert_position 5 3 0 6 1).2 6 1 3 0 = (0, 5) :=
  (convert_position_widen_round_trip 5 3 6 0 1 (by decide) (by decide) (by decide)
    (by decide) (by decide)).2

/-! ## Properties of the timer-driven commit loop -/

/-- C15: from either value of the in-flight flag, with a device whose module
data is present and a non-zero `virtual_image_size`,
`fimc_is_actuator_notify_m2m_actuator` returns 0, sets the flag to
`HRTIMER_IMPOSSIBLE` and starts the timer exactly once; an armed flag only adds
an error message. From either value of the flag, with its device present,
`fimc_is_actuator_m2m_af_set` calls the commit collaborator exactly once, which
sees the flag as it was, then sets the flag to `HRTIMER_POSSIBLE`, and returns
`HRTIMER_NORESTART`. -/
theorem timer_flag_transitions {σ : Type} (W H : Nat) (device : fimc_is_device_sensor)
    (call_m2m : timer_check_state → σ → σ) (sensor_peri : fimc_is_device_sensor_peri σ) :
    (device.subdev_module = some (some ()) → (W * H / 1000) % 2 ^ 32 ≠ 0 →
      ∃ out, fimc_is_actuator_notify_m2m_actuator W H (some device) sensor_peri
        = some (0, out) ∧
      out.timer_check = timer_check_state.HRTIMER_IMPOSSIBLE ∧
      (∃ delay, out.timer_starts = sensor_peri.timer_starts ++ [delay]) ∧
      out.m2m_calls = sensor_peri.m2m_calls ∧ out.commit = sensor_peri.commit ∧
      (sensor_peri.timer_check = timer_check_state.HRTIMER_POSSIBLE →
        out.timer_errors = sensor_peri.timer_errors) ∧
      (sensor_peri.timer_check = timer_check_state.HRTIMER_IMPOSSIBLE →
        out.timer_errors = sensor_peri.timer_errors + 1)) ∧
    (∃ out, fimc_is_actuator_m2m_af_set call_m2m (some device) sensor_peri
        = some (hrtimer_restart.HRTIMER_NORESTART, out) ∧
      out.timer_check = timer_check_state.HRTIMER_POSSIBLE ∧
      out.m2m_calls = sensor_peri.m2m_calls + 1 ∧
      out.commit = call_m2m sensor_peri.timer_check sensor_peri.commit ∧
      out.timer_starts = sensor_peri.timer_starts) := by
  constructor
  · intro hmodule hsize
    unfold fimc_is_actuator_notify_m2m_actuator
    simp only [hmodule, hsize, if_false]
    refine ⟨_, rfl, rfl, ⟨_, rfl⟩, rfl, rfl, ?_, ?_⟩
    · intro h
      simp [h]
    · intro h
      simp [h]
  · exact ⟨_, rfl, rfl, rfl, rfl, rfl⟩

/-- Instance of C15: a request made while the flag is already armed, with a
virtual coordinate space of 32768 by 24576. -/
theorem timer_flag_transitions_witness :
    (fimc_is_actuator_notify_m2m_actuator 32768 24576
        (some { subdev_module := some (some ()), valid_time := 33000 })
        ({ left_x := 0, left_y := 0, right_x := 32767, right_y := 24575,
           timer_check := timer_check_state.HRTIMER_IMPOSSIBLE, timer_starts := [],
           timer_errors := 0, m2m_calls := 0, commit := () } :
          fimc_is_device_sensor_peri Unit)).map
        (fun out => (out.1, out.2.timer_check, out.2.timer_starts.length))
        = some (0, timer_check_state.HRTIMER_IMPOSSIBLE, 1) := by
  obtain ⟨out, h, hflag, ⟨delay, hstart⟩, _⟩ :=
    (timer_flag_transitions 32768 24576 { subdev_module := some (some ()), valid_time := 33000 }
      (fun _ u => u)
      ({ left_x := 0, left_y := 0, right_x := 32767, right_y := 24575,
         timer_check := timer_check_state.HRTIMER_IMPOSSIBLE, timer_starts := [],
         timer_errors := 0, m2m_calls := 0, commit := () } :
        fimc_is_device_sensor_peri Unit)).1 rfl (by decide)
  rw [h, Option.map_some', hflag, hstart]
  rfl

end Actuator

namespace Mpu

open Kernel

/-! ## The exchanges of the banked layer -/

theorem memory_write_msgs_length (regs : RegMap) (mpu_addr mem_addr len : Nat) (d : List Nat) :
    (memory_write_msgs regs mpu_addr mem_addr len d).length = 3 := rfl

theorem memory_read_msgs_length (regs : RegMap) (mpu_addr mem_addr len : Nat) (d : List Nat) :
    (memory_read_msgs regs mpu_addr mem_addr len d).length = 4 := rfl

theorem memory_write_msgs_not_read (regs : RegMap) (mpu_addr mem_addr len : Nat) (d : List Nat) :
    is_read_exchange (memory_write_msgs regs mpu_addr mem_addr len d) = false := by
  simp [is_read_exchange, memory_write_msgs, I2C_M_RD]

theorem memory_read_msgs_read (regs : RegMap) (mpu_addr mem_addr len : Nat) (d : List Nat) :
    is_read_exchange (memory_read_msgs regs mpu_addr mem_addr len d) = true := by
  simp [is_read_exchange, memory_read_msgs, I2C_M_RD]

theorem write_exchanges_after {σ : Type} (xfer : Transport σ) (bus : Bus σ)
    (msgs : List i2c_msg) :
    write_exchanges (after xfer bus msgs)
      = write_exchanges bus + (if is_read_exchange msgs then 0 else 1) := by
  unfold write_exchanges after
  by_cases h : is_read_exchange msgs <;> simp [List.filter_append, h]

theorem read_exchanges_after {σ : Type} (xfer : Transport σ) (bus : Bus σ)
    (msgs : List i2c_msg) :
    read_exchanges (after xfer bus msgs)
      = read_exchanges bus + (if is_read_exchange msgs then 1 else 0) := by
  unfold read_exchanges after
  by_cases h : is_read_exchange msgs <;> simp [List.filter_append, h]

/-- A banked write of fewer than 512 bytes is one exchange of the three write
segments; its status is that of the exchange. -/
theorem _memory_write_exchange {σ : Type} (regs : RegMap) (xfer : Transport σ) (bus : Bus σ)
    (s : inv_mpu_state) (mpu_addr mem_addr len : Nat) (d : List Nat) (hlen : len < 512) :
    _memory_write regs xfer bus (some s) mpu_addr mem_addr len (some d)
      = (transfer_status (xfer bus.state (memory_write_msgs regs mpu_addr mem_addr len d)).1 3,
          after xfer bus (memory_write_msgs regs mpu_addr mem_addr len d)) := by
  unfold _memory_write
  simp only [ge_iff_le, Nat.add_one_sub_one]
  rw [if_neg (by omega)]
  rfl

/-- A banked read is one exchange of the four segments. -/
theorem mpu_memory_read_exchange {σ : Type} (regs : RegMap) (xfer : Transport σ) (bus : Bus σ)
    (s : inv_mpu_state) (mpu_addr mem_addr len : Nat) (d : List Nat) :
    mpu_memory_read regs xfer bus (some s) mpu_addr mem_addr len (some d)
      = (transfer_status (xfer bus.state (memory_read_msgs regs mpu_addr mem_addr len d)).1 4,
          some (xfer bus.state (memory_read_msgs regs mpu_addr mem_addr len d)).2.1,
          after xfer bus (memory_read_msgs regs mpu_addr mem_addr len d)) := rfl

/-! ## The attempts of `mpu_memory_write` -/

/-- The loop ends once `retry` is false or three attempts were made. -/
theorem mpu_memory_write_loop_done {σ : Type} (regs : RegMap) (xfer : Transport σ)
    (st : Option inv_mpu_state) (mpu_addr mem_addr len : Nat) (data : Option (List Nat))
    (fuel j : Nat) (retry : Bool) (r : Int) (w : List Nat) (bus : Bus σ)
    (h : ¬ (j < 3 ∧ retry = true)) :
    mpu_memory_write_loop regs xfer st mpu_addr mem_addr len data (fuel + 1) j retry r w bus
      = some (r, bus) := by
  rw [mpu_memory_write_loop, if_neg h]

/-- One attempt of a transfer under the verify threshold: a write exchange, then
a read-back exchange into `w` whose status becomes `r`, then the comparison. -/
theorem mpu_memory_write_loop_verify {σ : Type} (regs : RegMap) (xfer : Transport σ)
    (s : inv_mpu_state) (mpu_addr mem_addr len : Nat) (d : List Nat)
    (fuel j : Nat) (r : Int) (w : List Nat) (bus : Bus σ)
    (hj : j < 3) (hlen : len < 16) :
    mpu_memory_write_loop regs xfer (some s) mpu_addr mem_addr len (some d) (fuel + 1) j
        true r w bus
      = mpu_memory_write_loop regs xfer (some s) mpu_addr mem_addr len (some d) fuel (j + 1)
          (verify_mismatch len d
            (xfer (after xfer bus (memory_write_msgs regs mpu_addr mem_addr len d)).state
              (memory_read_msgs regs s.i2c_addr mem_addr len w)).2.1)
          (transfer_status
            (xfer (after xfer bus (memory_write_msgs regs mpu_addr mem_addr len d)).state
              (memory_read_msgs regs s.i2c_addr mem_addr len w)).1 4)
          (xfer (after xfer bus (memory_write_msgs regs mpu_addr mem_addr len d)).state
              (memory_read_msgs regs s.i2c_addr mem_addr len w)).2.1
          (after xfer (after xfer bus (memory_write_msgs regs mpu_addr mem_addr len d))
            (memory_read_msgs regs s.i2c_addr mem_addr len w)) := by
  rw [mpu_memory_write_loop, if_pos ⟨hj, rfl⟩]
  simp only [DMP_MEM_CMP_SIZE, hlen, if_true, mem_r]
  rw [_memory_write_exchange regs xfer bus s mpu_addr mem_addr len d (by omega)]
  simp only [mpu_memory_read_exchange, Option.getD_some]

/-- One attempt of a transfer at or over the verify threshold: the banked write
only, whose status becomes `r`. -/
theorem mpu_memory_write_loop_plain {σ : Type} (regs : RegMap) (xfer : Transport σ)
    (st : Option inv_mpu_state) (mpu_addr mem_addr len : Nat) (data : Option (List Nat))
    (fuel j : Nat) (r : Int) (w : List Nat) (bus : Bus σ)
    (hj : j < 3) (hlen : 16 ≤ len) :
    mpu_memory_write_loop regs xfer st mpu_addr mem_addr len data (fuel + 1) j true r w bus
      = mpu_memory_write_loop regs xfer st mpu_addr mem_addr len data fuel (j + 1) false
          (_memory_write regs xfer bus st mpu_addr mem_addr len data).1 w
          (_memory_write regs xfer bus st mpu_addr mem_addr len data).2 := by
  rw [mpu_memory_write_loop, if_pos ⟨hj, rfl⟩]
  simp only [DMP_MEM_CMP_SIZE]
  rw [if_neg (by omega)]

theorem verify_mismatch_iff (len : Nat) (d w : List Nat) :
    verify_mismatch len d w = true ↔ ∃ i, i < len ∧ d.getD i 0 ≠ w.getD i 0 := by
  simp [verify_mismatch, List.any_eq_true]

theorem verify_mismatch_false_iff (len : Nat) (d w : List Nat) :
    verify_mismatch len d w = false ↔ ∀ i, i < len → d.getD i 0 = w.getD i 0 := by
  rw [← Bool.not_eq_true, verify_mismatch_iff]
  push_neg
  rfl

/-! ## Properties of the banked memory layer -/

/-- C6: for every length of at least 512 (the 513-byte buffer minus the opcode
byte), every non-null `data` and every transport, `mpu_memory_write` returns
`-ENOMEM` and leaves the bus as it was: no exchange is logged, neither a write
nor a read-back, and the transport has not moved. -/
theorem mpu_memory_write_out_of_range {σ : Type} (regs : RegMap) (xfer : Transport σ)
    (bus : Bus σ) (s : inv_mpu_state) (mpu_addr mem_addr len : Nat) (d w0 : List Nat)
    (hlen : 512 ≤ len) :
    mpu_memory_write regs xfer bus (some s) mpu_addr mem_addr len (some d) w0
      = some (-ENOMEM, bus) := by
  have hw : _memory_write regs xfer bus (some s) mpu_addr mem_addr len (some d)
      = (-ENOMEM, bus) := by
    unfold _memory_write
    simp only [ge_iff_le]
    rw [if_pos hlen]
  unfold mpu_memory_write
  rw [mpu_memory_write_loop_plain regs xfer (some s) mpu_addr mem_addr len (some d) 3 0 0 w0 bus
    (by decide) (by omega), hw]
  exact mpu_memory_write_loop_done _ _ _ _ _ _ _ _ _ _ _ _ _ (by simp)

/-- Instance of C6: 512 bytes over a transport that would complete the write. -/
theorem mpu_memory_write_out_of_range_witness :
    mpu_memory_write example_regs scripted ⟨[(3, none)], []⟩ (some ⟨104⟩) 104 0 512
        (some (List.replicate 512 0)) []
      = some (-ENOMEM, ⟨[(3, none)], []⟩) :=
  mpu_memory_write_out_of_range example_regs scripted ⟨[(3, none)], []⟩ ⟨104⟩ 104 0 512
    (List.replicate 512 0) [] (by decide)

/-- One verified attempt over a transport that completes every exchange and
counts, through `served`, the read-backs it has answered. -/
theorem mpu_memory_write_loop_served {σ : Type} (regs : RegMap) (xfer : Transport σ)
    (s : inv_mpu_state) (mpu_addr mem_addr len : Nat) (d : List Nat) (served : σ → Nat)
    (hlen : len < 16)
    (hfull : ∀ t msgs, (xfer t msgs).1 = (msgs.length : Int))
    (hwrite : ∀ t msgs, is_read_exchange msgs = false → served (xfer t msgs).2.2 = served t)
    (hread : ∀ t msgs, is_read_exchange msgs = true → served (xfer t msgs).2.2 = served t + 1)
    (fuel j : Nat) (r : Int) (w : List Nat) (bus : Bus σ) (hj : j < 3) :
    ∃ w1 bus1 rd,
      mpu_memory_write_loop regs xfer (some s) mpu_addr mem_addr len (some d) (fuel + 1) j
          true r w bus
        = mpu_memory_write_loop regs xfer (some s) mpu_addr mem_addr len (some d) fuel (j + 1)
            (verify_mismatch len d (xfer bus1.state rd).2.1) 0 w1 (after xfer bus1 rd) ∧
      is_read_exchange rd = true ∧
      served bus1.state = served bus.state ∧
      served (after xfer bus1 rd).state = served bus.state + 1 ∧
      write_exchanges (after xfer bus1 rd) = write_exchanges bus + 1 ∧
      read_exchanges (after xfer bus1 rd) = read_exchanges bus + 1 := by
  refine ⟨(xfer (after xfer bus (memory_write_msgs regs mpu_addr mem_addr len d)).state
      (memory_read_msgs regs s.i2c_addr mem_addr len w)).2.1,
    after xfer bus (memory_write_msgs regs mpu_addr mem_addr len d),
    memory_read_msgs regs s.i2c_addr mem_addr len w, ?_, memory_read_msgs_read _ _ _ _ _, ?_, ?_,
    ?_, ?_⟩
  · rw [mpu_memory_write_loop_verify regs xfer s mpu_addr mem_addr len d fuel j r w bus hj hlen,
      hfull, memory_read_msgs_length]
    rfl
  · exact hwrite _ _ (memory_write_msgs_not_read _ _ _ _ _)
  · show served (xfer _ _).2.2 = _
    rw [hread _ _ (memory_read_msgs_read _ _ _ _ _)]
    show served (xfer _ _).2.2 + 1 = _
    rw [hwrite _ _ (memory_write_msgs_not_read _ _ _ _ _)]
  · rw [write_exchanges_after, write_exchanges_after, memory_read_msgs_read,
      memory_write_msgs_not_read]
    simp
  · rw [read_exchanges_after, read_exchanges_after, memory_read_msgs_read,
      memory_write_msgs_not_read]
    simp

/-- C7 (amended): for a transfer of 1 to 15 bytes over a transport that
completes every exchange, whose first two read-backs differ from the written
data in one of the first `len` bytes and whose third read-back agrees with it,
`mpu_memory_write` returns 0 after exactly 3 write exchanges and exactly 3
read-back exchanges, one after each write. `served` is the number of read-backs
the transport has answered. -/
theorem mpu_memory_write_retry_then_success {σ : Type} (regs : RegMap) (xfer : Transport σ)
    (bus : Bus σ) (s : inv_mpu_state) (mpu_addr mem_addr len : Nat) (d w0 : List Nat)
    (served : σ → Nat)
    (hlen : 1 ≤ len ∧ len ≤ 15) (_hdata : len ≤ d.length)
    (hfull : ∀ t msgs, (xfer t msgs).1 = (msgs.length : Int))
    (hstart : served bus.state = 0)
    (hwrite : ∀ t msgs, is_read_exchange msgs = false → served (xfer t msgs).2.2 = served t)
    (hread : ∀ t msgs, is_read_exchange msgs = true → served (xfer t msgs).2.2 = served t + 1)
    (hcorrupt : ∀ t msgs, is_read_exchange msgs = true → served t < 2 →
      ∃ i, i < len ∧ d.getD i 0 ≠ (xfer t msgs).2.1.getD i 0)
    (hcorrect : ∀ t msgs, is_read_exchange msgs = true → served t = 2 →
      ∀ i, i < len → d.getD i 0 = (xfer t msgs).2.1.getD i 0) :
    ∃ bus1, mpu_memory_write regs xfer bus (some s) mpu_addr mem_addr len (some d) w0
        = some (0, bus1) ∧
      write_exchanges bus1 = write_exchanges bus + 3 ∧
      read_exchanges bus1 = read_exchanges bus + 3 := by
  have hl : len < 16 := by omega
  obtain ⟨w1, b1, rd1, e1, hr1, hs1, hs1a, hw1, hrd1⟩ :=
    mpu_memory_write_loop_served regs xfer s mpu_addr mem_addr len d served hl hfull hwrite hread
      3 0 0 w0 bus (by decide)
  have m1 := (verify_mismatch_iff len d _).mpr (hcorrupt b1.state rd1 hr1 (by omega))
  obtain ⟨w2, b2, rd2, e2, hr2, hs2, hs2a, hw2, hrd2⟩ :=
    mpu_memory_write_loop_served regs xfer s mpu_addr mem_addr len d served hl hfull hwrite hread
      2 1 0 w1 (after xfer b1 rd1) (by decide)
  have m2 := (verify_mismatch_iff len d _).mpr (hcorrupt b2.state rd2 hr2 (by omega))
  obtain ⟨w3, b3, rd3, e3, hr3, hs3, hs3a, hw3, hrd3⟩ :=
    mpu_memory_write_loop_served regs xfer s mpu_addr mem_addr len d served hl hfull hwrite hread
      1 2 0 w2 (after xfer b2 rd2) (by decide)
  have m3 := (verify_mismatch_false_iff len d _).mpr (hcorrect b3.state rd3 hr3 (by omega))
  refine ⟨after xfer b3 rd3, ?_, by omega, by omega⟩
  unfold mpu_memory_write
  rw [e1, m1, e2, m2, e3, m3]
  exact mpu_memory_write_loop_done _ _ _ _ _ _ _ _ _ _ _ _ _ (by simp)

/-- Instance of C7 (amended): one byte `0xAA`, read back as `0xAB` twice and
then as `0xAA`. -/
theorem mpu_memory_write_retry_then_success_witness :
    (mpu_memory_write example_regs (corrupting [171] [170]) ⟨0, []⟩ (some ⟨104⟩) 104
        0x1234 1 (some [170]) [0]).map
      (fun out => (out.1, write_exchanges out.2, read_exchanges out.2)) = some (0, 3, 3) := by
  obtain ⟨bus1, hres, hw, hr⟩ :=
    mpu_memory_write_retry_then_success example_regs (corrupting [171] [170]) ⟨0, []⟩ ⟨104⟩ 104
      0x1234 1 [170] [0] id (by decide) (by decide)
      (fun t msgs => by unfold corrupting; split_ifs <;> rfl) rfl
      (fun t msgs h => by simp [corrupting, h])
      (fun t msgs h => by simp [corrupting, h])
      (fun t msgs h ht => ⟨0, by decide, by
        have ht2 : t < 2 := ht
        simp [corrupting, h, ht2]⟩)
      (fun t msgs h ht i hi => by
        have ht2 : t = 2 := ht
        simp [corrupting, h, ht2])
  rw [hres, Option.map_some', hw, hr]
  rfl

/-- C7 as stated fails: one byte `0xAA` over a transport that completes every
exchange and answers the three read-backs with `0xAB`, `0xAB`, `0xAA`. The call
returns 0 after 3 write exchanges and 3 read-back exchanges, not 2. -/
theorem mpu_memory_write_retry_counterexample :
    (mpu_memory_write example_regs scripted
        ⟨[(3, none), (4, some [171]), (3, none), (4, some [171]), (3, none), (4, some [170])],
          []⟩
        (some ⟨104⟩) 104 0x1234 1 (some [170]) [0]).map
        (fun out => (out.1, write_exchanges out.2, read_exchanges out.2)) = some (0, 3, 3) ∧
      ¬ (mpu_memory_write example_regs scripted
        ⟨[(3, none), (4, some [171]), (3, none), (4, some [171]), (3, none), (4, some [170])],
          []⟩
        (some ⟨104⟩) 104 0x1234 1 (some [170]) [0]).map
        (fun out => (out.1, write_exchanges out.2, read_exchanges out.2)) = some (0, 3, 2) := by
  constructor <;> decide

/-- With a NULL `data` and a length at or over the verify threshold,
`mpu_memory_write` returns `-EINVAL` and leaves the bus as it was. -/
theorem mpu_memory_write_null_data_plain {σ : Type} (regs : RegMap) (xfer : Transport σ)
    (bus : Bus σ) (st : Option inv_mpu_state) (mpu_addr mem_addr len : Nat) (w0 : List Nat)
    (hlen : 16 ≤ len) :
    mpu_memory_write regs xfer bus st mpu_addr mem_addr len none w0 = some (-EINVAL, bus) := by
  unfold mpu_memory_write
  rw [mpu_memory_write_loop_plain regs xfer st mpu_addr mem_addr len none 3 0 0 w0 bus
    (by decide) hlen]
  exact mpu_memory_write_loop_done _ _ _ _ _ _ _ _ _ _ _ _ _ (by simp)

/-- With a NULL `data`, `mpu_memory_read` returns `-EINVAL` and leaves the bus
as it was. -/
theorem mpu_memory_read_null_data {σ : Type} (regs : RegMap) (xfer : Transport σ)
    (bus : Bus σ) (st : Option inv_mpu_state) (mpu_addr mem_addr len : Nat) :
    mpu_memory_read regs xfer bus st mpu_addr mem_addr len none = (-EINVAL, none, bus) := rfl

/-- With a NULL `data` and length 0, `mpu_memory_write` issues the read-back
exchange all the same and returns its status. -/
theorem mpu_memory_write_null_data_zero {σ : Type} (regs : RegMap) (xfer : Transport σ)
    (bus : Bus σ) (s : inv_mpu_state) (mpu_addr mem_addr : Nat) (w0 : List Nat) :
    mpu_memory_write regs xfer bus (some s) mpu_addr mem_addr 0 none w0
      = some (transfer_status (xfer bus.state (memory_read_msgs regs s.i2c_addr mem_addr 0 w0)).1 4,
          after xfer bus (memory_read_msgs regs s.i2c_addr mem_addr 0 w0)) := by
  unfold mpu_memory_write
  rw [mpu_memory_write_loop, if_pos ⟨by decide, rfl⟩]
  simp only [DMP_MEM_CMP_SIZE, Nat.lt_add_one, Nat.ofNat_pos, if_true, mem_r, _memory_write,
    mpu_memory_read_exchange, Option.getD_some]
  exact mpu_memory_write_loop_done _ _ _ _ _ _ _ _ _ _ _ _ _ (by simp)

theorem transfer_status_complete (num : Nat) : transfer_status (num : Int) num = 0 := by
  unfold transfer_status
  rw [if_neg (by simp)]

/-- A transfer under the verify threshold, over a transport that completes every
exchange of write segments only: the loop returns from an attempt whose banked
write succeeded, with the status of the read-back exchange of that attempt. -/
theorem mpu_memory_write_loop_last_read_back {σ : Type} (regs : RegMap) (xfer : Transport σ)
    (s : inv_mpu_state) (mpu_addr mem_addr len : Nat) (d : List Nat) (hlen : len < 16)
    (hwrites : ∀ t msgs, is_read_exchange msgs = false → (xfer t msgs).1 = (msgs.length : Int)) :
    ∀ (fuel j : Nat) (r : Int) (w : List Nat) (bus : Bus σ), j < 3 → 4 ≤ fuel + j →
      ∃ busW bus0 rd,
        _memory_write regs xfer busW (some s) mpu_addr mem_addr len (some d) = (0, bus0) ∧
        is_read_exchange rd = true ∧ rd.length = 4 ∧
        mpu_memory_write_loop regs xfer (some s) mpu_addr mem_addr len (some d) fuel j true r w bus
          = some (transfer_status (xfer bus0.state rd).1 4, after xfer bus0 rd) := by
  intro fuel
  induction fuel with
  | zero => intro j r w bus hj hf; omega
  | succ fuel ih =>
    intro j r w bus hj hf
    rw [mpu_memory_write_loop_verify regs xfer s mpu_addr mem_addr len d fuel j r w bus hj hlen]
    generalize hretry : verify_mismatch len d
      (xfer (after xfer bus (memory_write_msgs regs mpu_addr mem_addr len d)).state
        (memory_read_msgs regs s.i2c_addr mem_addr len w)).2.1 = retry
    by_cases hcont : j + 1 < 3 ∧ retry = true
    · rw [hcont.2]
      exact ih (j + 1) _ _ _ hcont.1 (by omega)
    · obtain ⟨f, hf1⟩ : ∃ f, fuel = f + 1 := ⟨fuel - 1, by omega⟩
      subst hf1
      rw [mpu_memory_write_loop_done _ _ _ _ _ _ _ _ _ _ _ _ _ hcont]
      refine ⟨bus, after xfer bus (memory_write_msgs regs mpu_addr mem_addr len d),
        memory_read_msgs regs s.i2c_addr mem_addr len w, ?_, memory_read_msgs_read _ _ _ _ _,
        rfl, rfl⟩
      rw [_memory_write_exchange regs xfer bus s mpu_addr mem_addr len d (by omega),
        hwrites _ _ (memory_write_msgs_not_read _ _ _ _ _), memory_write_msgs_length]
      rw [transfer_status_complete 3]

/-- C8 (amended): for every transport, when `len ≥ 16` the value returned by
`mpu_memory_write` is the status of its single banked write. When `len < 16`, over
a transport that completes every exchange of write segments, the call returns
from an attempt whose banked write succeeded, and the value returned is the
status of the read-back exchange that followed it: 0 when that four-segment
read completed, an error otherwise. The byte comparison never changes the value
returned: over a transport that completes every exchange the call returns 0
whatever bytes are read back. -/
theorem mpu_memory_write_status {σ : Type} (regs : RegMap) (xfer : Transport σ) (bus : Bus σ)
    (s : inv_mpu_state) (mpu_addr mem_addr len : Nat) (d w0 : List Nat) :
    (16 ≤ len →
      mpu_memory_write regs xfer bus (some s) mpu_addr mem_addr len (some d) w0
        = some (_memory_write regs xfer bus (some s) mpu_addr mem_addr len (some d))) ∧
    (len < 16 →
      (∀ t msgs, is_read_exchange msgs = false → (xfer t msgs).1 = (msgs.length : Int)) →
      ∃ busW bus0 rd,
        _memory_write regs xfer busW (some s) mpu_addr mem_addr len (some d) = (0, bus0) ∧
        is_read_exchange rd = true ∧ rd.length = 4 ∧
        mpu_memory_write regs xfer bus (some s) mpu_addr mem_addr len (some d) w0
          = some (transfer_status (xfer bus0.state rd).1 4, after xfer bus0 rd)) ∧
    (len < 16 → (∀ t msgs, (xfer t msgs).1 = (msgs.length : Int)) →
      ∃ bus1, mpu_memory_write regs xfer bus (some s) mpu_addr mem_addr len (some d) w0
        = some (0, bus1)) := by
  refine ⟨fun h16 => ?_, fun hlen hwrites => ?_, fun hlen hfull => ?_⟩
  · unfold mpu_memory_write
    rw [mpu_memory_write_loop_plain regs xfer (some s) mpu_addr mem_addr len (some d) 3 0 0 w0
      bus (by decide) h16]
    exact mpu_memory_write_loop_done _ _ _ _ _ _ _ _ _ _ _ _ _ (by simp)
  · exact mpu_memory_write_loop_last_read_back regs xfer s mpu_addr mem_addr len d hlen hwrites
      4 0 0 w0 bus (by decide) (by decide)
  · obtain ⟨_, bus0, rd, _, _, hrd, hres⟩ :=
      mpu_memory_write_loop_last_read_back regs xfer s mpu_addr mem_addr len d hlen
        (fun t msgs _ => hfull t msgs) 4 0 0 w0 bus (by decide) (by decide)
    refine ⟨after xfer bus0 rd, ?_⟩
    unfold mpu_memory_write
    rw [hres, hfull, hrd]
    rw [transfer_status_complete 4]

/-- Instance of C8 (amended): one byte `0xAA` over a transport that completes
every exchange and always reads back `0xAB`. The three verifies fail and the
call returns 0. -/
theorem mpu_memory_write_status_witness :
    (mpu_memory_write example_regs (completing [171]) ⟨0, []⟩ (some ⟨104⟩) 104 0x1234 1
      (some [170]) [0]).map (fun out => (out.1, write_exchanges out.2)) = some (0, 3) := by
  obtain ⟨bus1, h⟩ := (mpu_memory_write_status example_regs (completing [171]) ⟨0, []⟩ ⟨104⟩
    104 0x1234 1 [170] [0]).2.2 (by decide) (fun _ _ => rfl)
  have h3 : (mpu_memory_write example_regs (completing [171]) ⟨0, []⟩ (some ⟨104⟩) 104 0x1234 1
      (some [170]) [0]).map (fun out => write_exchanges out.2) = some 3 := by decide
  rw [h] at h3 ⊢
  simp only [Option.map_some', Option.some.injEq] at h3
  rw [Option.map_some', h3]

/-- C8 as stated fails: one byte `0xAA` over a transport that completes the
three segments of every write exchange, so every write attempt succeeds, but
only 3 of the 4 segments of every read-back. After three attempts
`mpu_memory_write` returns `-EIO`, the status of the read-back. -/
theorem mpu_memory_write_status_counterexample :
    (_memory_write example_regs scripted ⟨[(3, none), (3, none)], []⟩ (some ⟨104⟩) 104
        0x1234 1 (some [170])).1 = 0 ∧
      (mpu_memory_write example_regs scripted
        ⟨[(3, none), (3, none), (3, none), (3, none), (3, none), (3, none)], []⟩ (some ⟨104⟩)
        104 0x1234 1 (some [170]) [0]).map
        (fun out => (out.1, write_exchanges out.2, read_exchanges out.2))
        = some (-EIO_errno, 3, 3) := by
  constructor <;> decide

/-- A failed write reported as a success: one byte `0xAA` over a transport that
completes 0 of the 3 segments of the write exchange, so the only write attempt
fails with `-EIO`, and then completes the read-back, which holds `0xAA`.
`mpu_memory_write` returns 0. -/
theorem mpu_memory_write_masks_failed_write :
    (_memory_write example_regs scripted ⟨[(0, none), (4, some [170])], []⟩ (some ⟨104⟩) 104
        0x1234 1 (some [170])).1 = -EIO_errno ∧
      (mpu_memory_write example_regs scripted ⟨[(0, none), (4, some [170])], []⟩ (some ⟨104⟩)
        104 0x1234 1 (some [170]) [0]).map
        (fun out => (out.1, write_exchanges out.2, read_exchanges out.2)) = some (0, 1, 1) := by
  constructor <;> decide

/-- C9 at a failing input: a NULL `data` with length 0 over a transport that
completes every exchange. `mpu_memory_write` issues one exchange, the read-back
into `w`, and returns 0, not `-EINVAL` with no exchange. -/
theorem mpu_memory_write_null_data_reaches_bus :
    (mpu_memory_write example_regs (completing []) ⟨0, []⟩ (some ⟨104⟩) 104 0x1234 0 none
        []).map (fun out => (out.1, out.2.calls.length, read_exchanges out.2)) = some (0, 1, 1) := by
  decide

theorem u8_bank (a : Nat) (ha : a < 65536) : u8 (a >>> 8) = a >>> 8 := by
  unfold u8
  rw [Nat.shiftRight_eq_div_pow]
  exact Nat.mod_eq_of_lt (by omega)

theorem u8_offset (a : Nat) : u8 (a &&& 0xFF) = a &&& 0xFF := by
  unfold u8
  exact Nat.mod_eq_of_lt (lt_of_le_of_lt Nat.and_le_right (by norm_num))

/-- C10: for every 16-bit address `a`, every length and every non-null buffer,
`mpu_memory_read` issues exactly one exchange, of four segments in this order:
write `[bank-select register, a >> 8]`, write `[offset register, a & 0xFF]`,
write `[opcode register]`, read of `len` bytes into the buffer. It returns 0
exactly when the transport reports 4 completed segments, `-EIO` for every other
non-negative count, and the caller's buffer afterwards is what the transport
left in it, so untouched when the transport did not touch it. -/
theorem mpu_memory_read_four_segments {σ : Type} (regs : RegMap) (xfer : Transport σ)
    (bus : Bus σ) (s : inv_mpu_state) (mpu_addr a len : Nat) (d : List Nat)
    (ha : a < 65536) :
    memory_read_msgs regs mpu_addr a len d =
        [{ addr := mpu_addr, flags := 0, buf := [regs.REG_MEM_BANK_SEL, a >>> 8], len := 2 },
         { addr := mpu_addr, flags := 0, buf := [regs.REG_MEM_START_ADDR, a &&& 0xFF], len := 2 },
         { addr := mpu_addr, flags := 0, buf := [regs.REG_MEM_R_W], len := 1 },
         { addr := mpu_addr, flags := I2C_M_RD, buf := d, len := len }] ∧
      (mpu_memory_read regs xfer bus (some s) mpu_addr a len (some d)).2.2.calls
        = bus.calls ++ [memory_read_msgs regs mpu_addr a len d] ∧
      ((mpu_memory_read regs xfer bus (some s) mpu_addr a len (some d)).1 = 0 ↔
        (xfer bus.state (memory_read_msgs regs mpu_addr a len d)).1 = 4) ∧
      (0 ≤ (xfer bus.state (memory_read_msgs regs mpu_addr a len d)).1 →
        (xfer bus.state (memory_read_msgs regs mpu_addr a len d)).1 ≠ 4 →
        (mpu_memory_read regs xfer bus (some s) mpu_addr a len (some d)).1 = -EIO_errno) ∧
      (mpu_memory_read regs xfer bus (some s) mpu_addr a len (some d)).2.1
        = some (xfer bus.state (memory_read_msgs regs mpu_addr a len d)).2.1 ∧
      ((xfer bus.state (memory_read_msgs regs mpu_addr a len d)).2.1 = d →
        (mpu_memory_read regs xfer bus (some s) mpu_addr a len (some d)).2.1 = some d) := by
  rw [mpu_memory_read_exchange]
  refine ⟨?_, rfl, ?_, ?_, rfl, fun h => by rw [h]⟩
  · unfold memory_read_msgs
    simp only [u8_bank a ha, u8_offset]
  · unfold transfer_status
    simp only [EIO_errno, Nat.cast_ofNat]
    split_ifs with h4 h0
    · exact ⟨fun h => absurd h (by decide), fun h => absurd h h4⟩
    · exact ⟨fun h => absurd h (by omega), fun h => absurd h h4⟩
    · exact ⟨fun _ => not_not.mp h4, fun _ => rfl⟩
  · intro h0 h4
    unfold transfer_status
    simp only [Nat.cast_ofNat]
    rw [if_pos h4, if_pos h0]

/-- Instance of C10: a transport that completes 3 of the 4 segments and leaves
the buffer alone gives `-EIO` and the buffer as it was. -/
theorem mpu_memory_read_four_segments_witness :
    (mpu_memory_read example_regs scripted ⟨[(3, none)], []⟩ (some ⟨104⟩) 104 0x1234 2
        (some [7, 7])).1 = -EIO_errno ∧
      (mpu_memory_read example_regs scripted ⟨[(3, none)], []⟩ (some ⟨104⟩) 104 0x1234 2
        (some [7, 7])).2.1 = some [7, 7] :=
  ⟨(mpu_memory_read_four_segments example_regs scripted ⟨[(3, none)], []⟩ ⟨104⟩ 104 0x1234 2
      [7, 7] (by decide)).2.2.2.1 (by decide) (by decide),
    (mpu_memory_read_four_segments example_regs scripted ⟨[(3, none)], []⟩ ⟨104⟩ 104 0x1234 2
      [7, 7] (by decide)).2.2.2.2.2 (by decide)⟩

/-! ## Further properties of the banked memory layer -/

theorem bank_offset_join (a : Nat) : (a >>> 8) * 256 + (a &&& 0xFF) = a := by
  have h := Nat.and_pow_two_sub_one_eq_mod a 8
  norm_num at h
  rw [h, Nat.shiftRight_eq_div_pow]
  norm_num
  omega

/-- C11: for every 16-bit address `a`, every length under 512 and every non-null
`data`, `_memory_write` issues exactly one exchange, of three write segments in
this order: `[bank-select register, a >> 8]` of 2 bytes, `[offset register,
a & 0xFF]` of 2 bytes and `[opcode register, data[0..len)]` of `len + 1` bytes,
where `(a >> 8) * 256 + (a & 0xFF) = a`. It returns 0 exactly when the transport
reports 3 completed segments and `-EIO` for every other non-negative count. -/
theorem _memory_write_three_segments {σ : Type} (regs : RegMap) (xfer : Transport σ)
    (bus : Bus σ) (s : inv_mpu_state) (mpu_addr a len : Nat) (d : List Nat)
    (ha : a < 65536) (hlen : len < 512) (hd : len ≤ d.length) :
    memory_write_msgs regs mpu_addr a len d =
        [{ addr := mpu_addr, flags := 0, buf := [regs.REG_MEM_BANK_SEL, a >>> 8], len := 2 },
         { addr := mpu_addr, flags := 0, buf := [regs.REG_MEM_START_ADDR, a &&& 0xFF], len := 2 },
         { addr := mpu_addr, flags := 0, buf := regs.REG_MEM_R_W :: d.take len,
           len := len + 1 }] ∧
      (regs.REG_MEM_R_W :: d.take len).length = len + 1 ∧
      (a >>> 8) * 256 + (a &&& 0xFF) = a ∧
      (_memory_write regs xfer bus (some s) mpu_addr a len (some d)).2.calls
        = bus.calls ++ [memory_write_msgs regs mpu_addr a len d] ∧
      ((_memory_write regs xfer bus (some s) mpu_addr a len (some d)).1 = 0 ↔
        (xfer bus.state (memory_write_msgs regs mpu_addr a len d)).1 = 3) ∧
      (0 ≤ (xfer bus.state (memory_write_msgs regs mpu_addr a len d)).1 →
        (xfer bus.state (memory_write_msgs regs mpu_addr a len d)).1 ≠ 3 →
        (_memory_write regs xfer bus (some s) mpu_addr a len (some d)).1 = -EIO_errno) := by
  rw [_memory_write_exchange regs xfer bus s mpu_addr a len d hlen]
  refine ⟨?_, ?_, bank_offset_join a, rfl, ?_, ?_⟩
  · unfold memory_write_msgs
    simp only [u8_bank a ha, u8_offset]
  · rw [List.length_cons, List.length_take, Nat.min_eq_left hd]
  · unfold transfer_status
    simp only [EIO_errno, Nat.cast_ofNat]
    split_ifs with h3 h0
    · exact ⟨fun h => absurd h (by decide), fun h => absurd h h3⟩
    · exact ⟨fun h => absurd h (by omega), fun h => absurd h h3⟩
    · exact ⟨fun _ => not_not.mp h3, fun _ => rfl⟩
  · intro h0 h3
    unfold transfer_status
    simp only [Nat.cast_ofNat]
    rw [if_pos h3, if_pos h0]

/-- Instance of C11: two bytes written at `0x1234` over a transport that
completes 2 of the 3 segments. -/
theorem _memory_write_three_segments_witness :
    (_memory_write example_regs scripted ⟨[(2, none)], []⟩ (some ⟨104⟩) 104 0x1234 2
        (some [1, 2])).1 = -EIO_errno ∧
      (_memory_write example_regs scripted ⟨[(2, none)], []⟩ (some ⟨104⟩) 104 0x1234 2
        (some [1, 2])).2.calls
        = [[{ addr := 104, flags := 0, buf := [0x7E, 0x12], len := 2 },
            { addr := 104, flags := 0, buf := [0x7C, 0x34], len := 2 },
            { addr := 104, flags := 0, buf := [0x7D, 1, 2], len := 3 }]] :=
  ⟨(_memory_write_three_segments example_regs scripted ⟨[(2, none)], []⟩ ⟨104⟩ 104 0x1234 2
      [1, 2] (by decide) (by decide) (by decide)).2.2.2.2.2 (by decide) (by decide),
    (_memory_write_three_segments example_regs scripted ⟨[(2, none)], []⟩ ⟨104⟩ 104 0x1234 2
      [1, 2] (by decide) (by decide) (by decide)).2.2.2.1⟩

/-! ## The number of attempts of `mpu_memory_write` -/

theorem verify_mismatch_zero (d w : List Nat) : verify_mismatch 0 d w = false := rfl

/-- Each attempt adds one write exchange to the log. -/
theorem write_exchanges_attempts {σ : Type} (regs : RegMap) (xfer : Transport σ)
    (s : inv_mpu_state) (mpu_addr mem_addr len : Nat) (d w0 : List Nat) (bus : Bus σ) (k : Nat) :
    write_exchanges (attempts regs xfer s mpu_addr mem_addr len d w0 bus k).2.2
      = write_exchanges bus + k := by
  induction k with
  | zero => rfl
  | succ k ih =>
    show write_exchanges (after xfer (after xfer _ _) _) = _
    rw [write_exchanges_after, write_exchanges_after, memory_read_msgs_read,
      memory_write_msgs_not_read, ih]
    simp only [if_true, Bool.false_eq_true, if_false]
    omega

/-- Each attempt adds one read-back exchange to the log. -/
theorem read_exchanges_attempts {σ : Type} (regs : RegMap) (xfer : Transport σ)
    (s : inv_mpu_state) (mpu_addr mem_addr len : Nat) (d w0 : List Nat) (bus : Bus σ) (k : Nat) :
    read_exchanges (attempts regs xfer s mpu_addr mem_addr len d w0 bus k).2.2
      = read_exchanges bus + k := by
  induction k with
  | zero => rfl
  | succ k ih =>
    show read_exchanges (after xfer (after xfer _ _) _) = _
    rw [read_exchanges_after, read_exchanges_after, memory_read_msgs_read,
      memory_write_msgs_not_read, ih]
    simp only [if_true, Bool.false_eq_true, if_false]
    omega

/-- One iteration of the loop under the verify threshold is one attempt. -/
theorem mpu_memory_write_loop_attempt {σ : Type} (regs : RegMap) (xfer : Transport σ)
    (s : inv_mpu_state) (mpu_addr mem_addr len : Nat) (d : List Nat)
    (fuel j : Nat) (r : Int) (w : List Nat) (bus : Bus σ) (hj : j < 3) (hlen : len < 16) :
    mpu_memory_write_loop regs xfer (some s) mpu_addr mem_addr len (some d) (fuel + 1) j
        true r w bus
      = mpu_memory_write_loop regs xfer (some s) mpu_addr mem_addr len (some d) fuel (j + 1)
          (verify_mismatch len d (verified_attempt regs xfer s mpu_addr mem_addr len d w bus).2.1)
          (verified_attempt regs xfer s mpu_addr mem_addr len d w bus).1
          (verified_attempt regs xfer s mpu_addr mem_addr len d w bus).2.1
          (verified_attempt regs xfer s mpu_addr mem_addr len d w bus).2.2 :=
  mpu_memory_write_loop_verify regs xfer s mpu_addr mem_addr len d fuel j r w bus hj hlen

/-- C14: for every transport, `mpu_memory_write` returns after at most 3
attempts. With `len ≥ 16` it is one banked write and nothing else. With
`len < 16` it makes some number `k` of attempts, `1 ≤ k ≤ 3`, each a write
exchange followed by a read-back exchange, and returns the status of the last
read-back; every attempt before the `k`-th read back data that differs from
`data` in one of the first `len` bytes, and the `k`-th did not unless `k = 3`. So
`k = 1` when `len = 0`, and `k = 3` when every read-back differs. -/
theorem mpu_memory_write_attempts {σ : Type} (regs : RegMap) (xfer : Transport σ)
    (bus : Bus σ) (s : inv_mpu_state) (mpu_addr mem_addr len : Nat) (d w0 : List Nat) :
    (16 ≤ len →
      mpu_memory_write regs xfer bus (some s) mpu_addr mem_addr len (some d) w0
        = some (_memory_write regs xfer bus (some s) mpu_addr mem_addr len (some d))) ∧
    (len < 16 →
      ∃ k, 1 ≤ k ∧ k ≤ 3 ∧
        mpu_memory_write regs xfer bus (some s) mpu_addr mem_addr len (some d) w0
          = some ((attempts regs xfer s mpu_addr mem_addr len d w0 bus k).1,
              (attempts regs xfer s mpu_addr mem_addr len d w0 bus k).2.2) ∧
        write_exchanges (attempts regs xfer s mpu_addr mem_addr len d w0 bus k).2.2
          = write_exchanges bus + k ∧
        read_exchanges (attempts regs xfer s mpu_addr mem_addr len d w0 bus k).2.2
          = read_exchanges bus + k ∧
        (∀ i, 1 ≤ i → i < k →
          ∃ n, n < len ∧ d.getD n 0 ≠
            (attempts regs xfer s mpu_addr mem_addr len d w0 bus i).2.1.getD n 0) ∧
        (k < 3 → ∀ n, n < len → d.getD n 0 =
            (attempts regs xfer s mpu_addr mem_addr len d w0 bus k).2.1.getD n 0) ∧
        (len = 0 → k = 1) ∧
        ((∀ i, 1 ≤ i → i ≤ 3 →
          ∃ n, n < len ∧ d.getD n 0 ≠
            (attempts regs xfer s mpu_addr mem_addr len d w0 bus i).2.1.getD n 0) → k = 3)) := by
  refine ⟨fun h16 => ?_, fun hlen => ?_⟩
  · unfold mpu_memory_write
    rw [mpu_memory_write_loop_plain regs xfer (some s) mpu_addr mem_addr len (some d) 3 0 0 w0
      bus (by decide) h16]
    exact mpu_memory_write_loop_done _ _ _ _ _ _ _ _ _ _ _ _ _ (by simp)
  · have e1 : mpu_memory_write regs xfer bus (some s) mpu_addr mem_addr len (some d) w0
        = mpu_memory_write_loop regs xfer (some s) mpu_addr mem_addr len (some d) 3 1
            (verify_mismatch len d (attempts regs xfer s mpu_addr mem_addr len d w0 bus 1).2.1)
            (attempts regs xfer s mpu_addr mem_addr len d w0 bus 1).1
            (attempts regs xfer s mpu_addr mem_addr len d w0 bus 1).2.1
            (attempts regs xfer s mpu_addr mem_addr len d w0 bus 1).2.2 :=
      mpu_memory_write_loop_attempt regs xfer s mpu_addr mem_addr len d 3 0 0 w0 bus
        (by decide) hlen
    have e2 : mpu_memory_write_loop regs xfer (some s) mpu_addr mem_addr len (some d) 3 1 true
          (attempts regs xfer s mpu_addr mem_addr len d w0 bus 1).1
          (attempts regs xfer s mpu_addr mem_addr len d w0 bus 1).2.1
          (attempts regs xfer s mpu_addr mem_addr len d w0 bus 1).2.2
        = mpu_memory_write_loop regs xfer (some s) mpu_addr mem_addr len (some d) 2 2
            (verify_mismatch len d (attempts regs xfer s mpu_addr mem_addr len d w0 bus 2).2.1)
            (attempts regs xfer s mpu_addr mem_addr len d w0 bus 2).1
            (attempts regs xfer s mpu_addr mem_addr len d w0 bus 2).2.1
            (attempts regs xfer s mpu_addr mem_addr len d w0 bus 2).2.2 :=
      mpu_memory_write_loop_attempt regs xfer s mpu_addr mem_addr len d 2 1 _ _ _
        (by decide) hlen
    have e3 : mpu_memory_write_loop regs xfer (some s) mpu_addr mem_addr len (some d) 2 2 true
          (attempts regs xfer s mpu_addr mem_addr len d w0 bus 2).1
          (attempts regs xfer s mpu_addr mem_addr len d w0 bus 2).2.1
          (attempts regs xfer s mpu_addr mem_addr len d w0 bus 2).2.2
        = mpu_memory_write_loop regs xfer (some s) mpu_addr mem_addr len (some d) 1 3
            (verify_mismatch len d (attempts regs xfer s mpu_addr mem_addr len d w0 bus 3).2.1)
            (attempts regs xfer s mpu_addr mem_addr len d w0 bus 3).1
            (attempts regs xfer s mpu_addr mem_addr len d w0 bus 3).2.1
            (attempts regs xfer s mpu_addr mem_addr len d w0 bus 3).2.2 :=
      mpu_memory_write_loop_attempt regs xfer s mpu_addr mem_addr len d 1 2 _ _ _
        (by decide) hlen
    have hw := write_exchanges_attempts regs xfer s mpu_addr mem_addr len d w0 bus
    have hr := read_exchanges_attempts regs xfer s mpu_addr mem_addr len d w0 bus
    by_cases m1 : verify_mismatch len d
        (attempts regs xfer s mpu_addr mem_addr len d w0 bus 1).2.1 = true
    · by_cases m2 : verify_mismatch len d
          (attempts regs xfer s mpu_addr mem_addr len d w0 bus 2).2.1 = true
      · refine ⟨3, by decide, le_refl _, ?_, hw 3, hr 3, ?_, fun h => absurd h (by decide),
          ?_, fun _ => rfl⟩
        · rw [e1, m1, e2, m2, e3]
          exact mpu_memory_write_loop_done _ _ _ _ _ _ _ _ _ _ _ _ _ (by simp)
        · intro i h1 h3
          rcases (by omega : i = 1 ∨ i = 2) with rfl | rfl
          · exact (verify_mismatch_iff _ _ _).mp m1
          · exact (verify_mismatch_iff _ _ _).mp m2
        · intro h0
          subst h0
          exact absurd m1 (by rw [verify_mismatch_zero]; decide)
      · refine ⟨2, by decide, by decide, ?_, hw 2, hr 2, ?_, ?_, ?_, ?_⟩
        · rw [e1, m1, e2]
          exact mpu_memory_write_loop_done _ _ _ _ _ _ _ _ _ _ _ _ _
            (fun h => m2 h.2)
        · intro i h1 h2
          obtain rfl : i = 1 := by omega
          exact (verify_mismatch_iff _ _ _).mp m1
        · intro _
          exact (verify_mismatch_false_iff _ _ _).mp (Bool.not_eq_true _ ▸ m2)
        · intro h0
          subst h0
          exact absurd m1 (by rw [verify_mismatch_zero]; decide)
        · intro hall
          exact absurd ((verify_mismatch_iff _ _ _).mpr (hall 2 (by decide) (by decide))) m2
    · refine ⟨1, le_refl _, by decide, ?_, hw 1, hr 1, ?_, ?_, fun _ => rfl, ?_⟩
      · rw [e1]
        exact mpu_memory_write_loop_done _ _ _ _ _ _ _ _ _ _ _ _ _ (fun h => m1 h.2)
      · intro i h1 h2
        omega
      · intro _
        exact (verify_mismatch_false_iff _ _ _).mp (Bool.not_eq_true _ ▸ m1)
      · intro hall
        exact absurd ((verify_mismatch_iff _ _ _).mpr (hall 1 (by decide) (by decide))) m1

/-- Instance of C14: one byte `0xAA` over a transport that completes every
exchange and always reads back `0xAB` takes 3 attempts, and a transfer of 0
bytes takes 1. -/
theorem mpu_memory_write_attempts_witness :
    (mpu_memory_write example_regs (completing [171]) ⟨0, []⟩ (some ⟨104⟩) 104 0x1234 1
        (some [170]) [0]).map (fun out => (write_exchanges out.2, read_exchanges out.2))
        = some (3, 3) ∧
      (mpu_memory_write example_regs (completing [171]) ⟨0, []⟩ (some ⟨104⟩) 104 0x1234 0
        (some []) [0]).map (fun out => (write_exchanges out.2, read_exchanges out.2))
        = some (1, 1) := by
  constructor
  · obtain ⟨k, _, _, hres, hw, hr, _, _, _, hall⟩ :=
      (mpu_memory_write_attempts example_regs (completing [171]) ⟨0, []⟩ ⟨104⟩ 104 0x1234 1
        [170] [0]).2 (by decide)
    have hk : k = 3 := hall (fun i h1 h3 => ⟨0, by decide, by
      rcases (by omega : i = 1 ∨ i = 2 ∨ i = 3) with rfl | rfl | rfl <;> decide⟩)
    subst hk
    rw [hres, Option.map_some', hw, hr]
    rfl
  · obtain ⟨k, _, _, hres, hw, hr, _, _, h0, _⟩ :=
      (mpu_memory_write_attempts example_regs (completing [171]) ⟨0, []⟩ ⟨104⟩ 104 0x1234 0
        [] [0]).2 (by decide)
    have hk : k = 1 := h0 rfl
    subst hk
    rw [hres, Option.map_some', hw, hr]
    rfl

/-! ## Properties of the register access layer -/

/-- C12: with a NULL destination buffer `inv_i2c_read_base` returns `-EINVAL` and
leaves the bus as it was. With a buffer it issues exactly one exchange, of two
segments to the same device address: the 1-byte write of the register address,
then the read of `length` bytes into the buffer. It returns `-EIO` when the
transport reports 0 or 1 completed segments, 0 when it reports 2 or more, and a
negative value of the transport unchanged. -/
theorem inv_i2c_read_base_two_segments {σ : Type} (xfer : Transport σ) (bus : Bus σ)
    (st : Option inv_mpu_state) (s : inv_mpu_state) (i2c_addr reg length : Nat)
    (d : List Nat) :
    inv_i2c_read_base xfer bus st i2c_addr reg length none = some (-EINVAL, none, bus) ∧
      read_base_msgs i2c_addr reg length d =
        [{ addr := i2c_addr, flags := 0, buf := [reg], len := 1 },
         { addr := i2c_addr, flags := I2C_M_RD, buf := d, len := length }] ∧
      inv_i2c_read_base xfer bus (some s) i2c_addr reg length (some d)
        = some (read_base_status (xfer bus.state (read_base_msgs i2c_addr reg length d)).1,
            some (xfer bus.state (read_base_msgs i2c_addr reg length d)).2.1,
            { state := (xfer bus.state (read_base_msgs i2c_addr reg length d)).2.2,
              calls := bus.calls ++ [read_base_msgs i2c_addr reg length d] }) ∧
      read_base_status 0 = -EIO_errno ∧ read_base_status 1 = -EIO_errno ∧
      (∀ res : Int, 2 ≤ res → read_base_status res = 0) ∧
      (∀ res : Int, res < 0 → read_base_status res = res) := by
  refine ⟨rfl, rfl, rfl, by decide, by decide, fun res h => ?_, fun res h => ?_⟩
  · unfold read_base_status
    rw [if_neg (by omega)]
  · unfold read_base_status
    rw [if_pos (by omega), if_neg (by omega)]

/-- C13: `inv_i2c_single_write_base` issues exactly one exchange, of one write
segment of 2 bytes holding `[reg, data]`, and nothing after it. It returns
`-EIO` when the transport reports 0 completed segments, 0 when it reports 1 or
more, and a negative value of the transport unchanged. -/
theorem inv_i2c_single_write_base_one_segment {σ : Type} (xfer : Transport σ) (bus : Bus σ)
    (s : inv_mpu_state) (i2c_addr reg data : Nat) :
    inv_i2c_single_write_base xfer bus (some s) i2c_addr reg data
        = some (single_write_status (xfer bus.state
              [{ addr := i2c_addr, flags := 0, buf := [reg, data], len := 2 }]).1,
            { state := (xfer bus.state
                [{ addr := i2c_addr, flags := 0, buf := [reg, data], len := 2 }]).2.2,
              calls := bus.calls ++
                [[{ addr := i2c_addr, flags := 0, buf := [reg, data], len := 2 }]] }) ∧
      single_write_status 0 = -EIO_errno ∧
      (∀ res : Int, 1 ≤ res → single_write_status res = 0) ∧
      (∀ res : Int, res < 0 → single_write_status res = res) := by
  refine ⟨rfl, by decide, fun res h => ?_, fun res h => ?_⟩
  · unfold single_write_status
    rw [if_neg (by omega)]
  · unfold single_write_status
    rw [if_pos (by omega), if_neg (by omega)]

end Mpu
